import Mathlib

/-!
Verification development for the KaGen distributed graph generator core
(`mschimek/KaGen`): a shallow embedding of the `Grid3D` lattice sampler
(`src/include/generators/grid/grid_3d.h`), the edge sink
(`src/include/io/generator_io.h`) and the binary edge-list writer
(`src/kagen/io/io.cpp`), together with theorems about the chunk
decomposition, edge emission and output behaviour.

Machine integers (`SInt = unsigned long long`) are modelled as `Nat`;
the arithmetic the theorems rely on stays far below `2^64`, and where
unsigned subtraction occurs in the source the development either proves
the subtrahend bounded or mirrors the truncating behaviour explicitly.
The SpookyHash mixer (`hash.hpp`) and the binomial sampler
(`rng_wrapper.h`) are not part of the sources; following the
specification (§4.1) they are pure functions of their integer inputs,
so they appear here as abstract function parameters `hash : Nat → Nat`
and `binom : Nat → Bool` (the result of `GenerateBinomial(h, 1, p)` for
the fixed model probability `p`, as a function of `h`).
-/

namespace KaGen

/-- The six axis directions queried by `Grid3D::GenerateEdges`
(grid_3d.h lines 117–124). -/
inductive Direction where
  | Right
  | Left
  | Up
  | Down
  | Front
  | Back
deriving DecidableEq, Repr

/-- `DirectionX` (grid_3d.h lines 249–258): x-delta of a direction. -/
def dirX : Direction → Int
  | .Left => -1
  | .Right => 1
  | _ => 0

/-- `DirectionY` (grid_3d.h lines 260–269): y-delta of a direction. -/
def dirY : Direction → Int
  | .Up => -1
  | .Down => 1
  | _ => 0

/-- `DirectionZ` (grid_3d.h lines 271–280): z-delta of a direction. -/
def dirZ : Direction → Int
  | .Front => -1
  | .Back => 1
  | _ => 0

/-- The opposite axis direction (not a source function; used to state
that an adjacency is visited once from each endpoint). -/
def oppositeDir : Direction → Direction
  | .Right => .Left
  | .Left => .Right
  | .Up => .Down
  | .Down => .Up
  | .Front => .Back
  | .Back => .Front

/-- The `Grid3D` model parameters read from the configuration in
`Grid3D::Generate` (grid_3d.h lines 38–46): the grid dimensions
`total_x_`, `total_y_`, `total_z_`, the chunk grid side length
`chunks_per_dim_` (in the source `cbrt(config_.k)`, meaningful exactly
when `k` is a perfect cube — the floating-point `cbrt` itself is not
modelled) and the `periodic` flag. -/
structure Grid3DParams where
  totalX : Nat
  totalY : Nat
  totalZ : Nat
  chunksPerDim : Nat
  periodic : Bool
deriving DecidableEq, Repr

/-- `x_per_chunk_ = total_x_ / chunks_per_dim_` (grid_3d.h line 58). -/
def xPerChunk (g : Grid3DParams) : Nat := g.totalX / g.chunksPerDim

/-- `remaining_x_ = total_x_ % chunks_per_dim_` (grid_3d.h line 59). -/
def remainingX (g : Grid3DParams) : Nat := g.totalX % g.chunksPerDim

/-- `y_per_chunk_ = total_y_ / chunks_per_dim_` (grid_3d.h line 55). -/
def yPerChunk (g : Grid3DParams) : Nat := g.totalY / g.chunksPerDim

/-- `remaining_y_ = total_y_ % chunks_per_dim_` (grid_3d.h line 56). -/
def remainingY (g : Grid3DParams) : Nat := g.totalY % g.chunksPerDim

/-- `z_per_chunk_ = total_z_ / chunks_per_dim_` (grid_3d.h line 61). -/
def zPerChunk (g : Grid3DParams) : Nat := g.totalZ / g.chunksPerDim

/-- `remaining_z_ = total_z_ % chunks_per_dim_` (grid_3d.h line 62). -/
def remainingZ (g : Grid3DParams) : Nat := g.totalZ % g.chunksPerDim

/-- x-component of `Grid3D::Decode` (grid_3d.h line 315). -/
def decodeX (g : Grid3DParams) (id : Nat) : Nat := id % g.chunksPerDim

/-- y-component of `Grid3D::Decode` (grid_3d.h line 316). -/
def decodeY (g : Grid3DParams) (id : Nat) : Nat :=
  (id / g.chunksPerDim) % g.chunksPerDim

/-- z-component of `Grid3D::Decode` (grid_3d.h line 317). -/
def decodeZ (g : Grid3DParams) (id : Nat) : Nat :=
  id / (g.chunksPerDim * g.chunksPerDim)

/-- `Grid3D::Encode` (grid_3d.h lines 321–324). -/
def encodeChunk (g : Grid3DParams) (x y z : Nat) : Nat :=
  x + y * g.chunksPerDim + z * (g.chunksPerDim * g.chunksPerDim)

/-- Start coordinate of chunk column `cx` along the x-axis:
`chunk_x * x_per_chunk_ + std::min(chunk_x, remaining_x_)`
(grid_3d.h line 287). -/
def startX (g : Grid3DParams) (cx : Nat) : Nat :=
  cx * xPerChunk g + min cx (remainingX g)

/-- Start coordinate along the y-axis (grid_3d.h lines 288, 291). -/
def startY (g : Grid3DParams) (cy : Nat) : Nat :=
  cy * yPerChunk g + min cy (remainingY g)

/-- Start coordinate along the z-axis (grid_3d.h lines 289, 292). -/
def startZ (g : Grid3DParams) (cz : Nat) : Nat :=
  cz * zPerChunk g + min cz (remainingZ g)

/-- Per-chunk x-extent `xs = x_per_chunk_ + (chunk_x < remaining_x_)`
(grid_3d.h lines 133, 191). -/
def chunkXs (g : Grid3DParams) (cx : Nat) : Nat :=
  xPerChunk g + (if cx < remainingX g then 1 else 0)

/-- Per-chunk y-extent (grid_3d.h lines 134, 192). -/
def chunkYs (g : Grid3DParams) (cy : Nat) : Nat :=
  yPerChunk g + (if cy < remainingY g then 1 else 0)

/-- Per-chunk z-extent (grid_3d.h lines 135, 193). -/
def chunkZs (g : Grid3DParams) (cz : Nat) : Nat :=
  zPerChunk g + (if cz < remainingZ g then 1 else 0)

/-- Number of lattice cells of a chunk: the product of the three
per-chunk extents of `QueryInDirection` / `LocateVertexInChunk`
(grid_3d.h lines 133–135, 191–193) at the chunk's decoded
coordinates. -/
def chunkVolume (g : Grid3DParams) (c : Nat) : Nat :=
  chunkXs g (decodeX g c) * chunkYs g (decodeY g c) * chunkZs g (decodeZ g c)

/-- `Grid3D::OffsetForChunk` (grid_3d.h lines 282–311): first global
vertex id of a chunk, computed by inclusion–exclusion.  The unsigned
subtraction in the source never underflows (proved below as
`offsetForChunk_closed_form`), so `Nat` subtraction is faithful. -/
def offsetForChunk (g : Grid3DParams) (chunk : Nat) : Nat :=
  let vx := startX g (decodeX g chunk)
  let vy := startY g (decodeY g chunk)
  let vz := startZ g (decodeZ g chunk)
  let nextVy := startY g (decodeY g chunk + 1)
  let nextVz := startZ g (decodeZ g chunk + 1)
  let upperCube := g.totalX * vy * nextVz
  let frontalCube := g.totalX * g.totalY * vz
  let frontalLeftCube := vx * nextVy * nextVz
  let intersectUF := g.totalX * vy * vz
  let intersectUFL := vx * vy * nextVz
  let intersectFFL := vx * nextVy * vz
  let intersectAll := vx * vy * vz
  upperCube + frontalCube + frontalLeftCube
    - (intersectUF + intersectUFL + intersectFFL) + intersectAll

/-- `Grid3D::IsLocalVertex` (grid_3d.h lines 168–174). -/
def isLocalVertex (lx ly lz : Int) (xs ys zs : Nat) : Bool :=
  !(lx < 0 || lx ≥ (xs : Int) || ly < 0 || ly ≥ (ys : Int)
      || lz < 0 || lz ≥ (zs : Int))

/-- `Grid3D::IsValidChunk` (grid_3d.h lines 176–181). -/
def isValidChunk (g : Grid3DParams) (cx cy cz : Int) : Bool :=
  !(cx < 0 || cx ≥ (g.chunksPerDim : Int) || cy < 0
      || cy ≥ (g.chunksPerDim : Int) || cz < 0 || cz ≥ (g.chunksPerDim : Int))

/-- `Grid3D::LocateVertexInChunk` (grid_3d.h lines 183–231): the vertex
id inside `chunk` adjacent to local position `(local_x, local_y,
local_z)` when entering from `direction`.  The source subtracts 1 from
an unsigned chunk extent; along the axis being subtracted the target
chunk of any reachable query is nonempty (its extent is at least the
source chunk's, which contains a vertex), so `Nat` truncation agrees
with the unsigned arithmetic on all reachable inputs. -/
def locateVertexInChunk (g : Grid3DParams) (chunk localX localY localZ : Nat)
    (direction : Direction) : Nat :=
  let offset := offsetForChunk g chunk
  let xs := chunkXs g (decodeX g chunk)
  let ys := chunkYs g (decodeY g chunk)
  let zs := chunkZs g (decodeZ g chunk)
  let lnx : Nat :=
    match direction with
    | .Right => 0
    | .Left => xs - 1
    | _ => localX
  let lny : Nat :=
    match direction with
    | .Up => ys - 1
    | .Down => 0
    | _ => localY
  let lnz : Nat :=
    match direction with
    | .Front => zs - 1
    | .Back => 0
    | _ => localZ
  offset + (lnx + lny * xs + lnz * (xs * ys))

/-- `Grid3D::QueryInDirection` (grid_3d.h lines 126–166): the candidate
edge produced for `vertex` (inside `chunk`) in `direction`, or `none`
when the neighbor is outside the grid (non-periodic boundary). -/
def queryInDirection (g : Grid3DParams) (chunk vertex : Nat)
    (direction : Direction) : Option (Nat × Nat) :=
  let offset := offsetForChunk g chunk
  let localVertex := vertex - offset
  let cx := decodeX g chunk
  let cy := decodeY g chunk
  let cz := decodeZ g chunk
  let xs := chunkXs g cx
  let ys := chunkYs g cy
  let zs := chunkZs g cz
  let localX := localVertex % xs
  let localY := (localVertex / xs) % ys
  let localZ := localVertex / (xs * ys)
  let lnx : Int := (localX : Int) + dirX direction
  let lny : Int := (localY : Int) + dirY direction
  let lnz : Int := (localZ : Int) + dirZ direction
  if isLocalVertex lnx lny lnz xs ys zs then
    some (vertex, offset + (lnx + lny * (xs : Int) + lnz * ((xs : Int) * (ys : Int))).toNat)
  else
    let ncx0 : Int := (cx : Int) + dirX direction
    let ncy0 : Int := (cy : Int) + dirY direction
    let ncz0 : Int := (cz : Int) + dirZ direction
    let d : Int := (g.chunksPerDim : Int)
    let ncx : Int := if g.periodic then (ncx0 + d) % d else ncx0
    let ncy : Int := if g.periodic then (ncy0 + d) % d else ncy0
    let ncz : Int := if g.periodic then (ncz0 + d) % d else ncz0
    if isValidChunk g ncx ncy ncz then
      let neighborChunk := encodeChunk g ncx.toNat ncy.toNat ncz.toNat
      some (vertex, locateVertexInChunk g neighborChunk localX localY localZ direction)
    else
      none

/-- The global vertex id at chunk coordinates `(cx, cy, cz)` and local
cell coordinates `(a, b, c)` inside that chunk: the chunk's offset plus
the row-major local index that `QueryInDirection` and
`LocateVertexInChunk` use (grid_3d.h lines 146, 203–230).  Not a
separate source function — the coordinate reading of the vertex ids
those two functions manipulate. -/
def vertexAt (g : Grid3DParams) (cx cy cz a b c : Nat) : Nat :=
  offsetForChunk g (encodeChunk g cx cy cz)
    + (a + b * chunkXs g cx + c * (chunkXs g cx * chunkYs g cy))

/-- `edge_seed` of `Grid3D::GenerateEdge` (grid_3d.h lines 234–235):
`min(source, target) * total_y_ * total_x_ * total_z_ + max(source, target)`. -/
def edgeSeed (g : Grid3DParams) (source target : Nat) : Nat :=
  min source target * g.totalY * g.totalX * g.totalZ + max source target

/-- The emission decision of `Grid3D::GenerateEdge` (grid_3d.h lines
233–247): hash the global seed plus the edge seed and draw one
Bernoulli trial.  `hash` models `sampling::Spooky::hash` and `binom`
models `rng_.GenerateBinomial(·, 1, p)`; both are pure functions of
their integer argument (spec §4.1), abstracted because `hash.hpp` and
`rng_wrapper.h` are not among the sources. -/
def emitDecision (hash : Nat → Nat) (binom : Nat → Bool) (seed : Nat)
    (g : Grid3DParams) (source target : Nat) : Bool :=
  binom (hash (seed + edgeSeed g source target))

/-- Body of `Grid3D::GenerateEdge` for a fixed coin `coin : Nat → Bool`
applied to the edge seed (the composition of seed addition, hashing and
the Bernoulli draw): emit `(source, target)` iff the coin accepts. -/
def generateEdge (g : Grid3DParams) (coin : Nat → Bool) (source target : Nat) :
    List (Nat × Nat) :=
  if coin (edgeSeed g source target) then [(source, target)] else []

/-- `Grid3D::GenerateEdges` (grid_3d.h lines 117–124): query the six
axis directions for one vertex, in source order. -/
def generateEdgesForVertex (g : Grid3DParams) (coin : Nat → Bool)
    (chunk vertex : Nat) : List (Nat × Nat) :=
  [Direction.Right, Direction.Left, Direction.Up, Direction.Down,
   Direction.Front, Direction.Back].flatMap fun direction =>
    match queryInDirection g chunk vertex direction with
    | some (s, t) => generateEdge g coin s t
    | none => []

/-- `Grid3D::GenerateChunk` (grid_3d.h lines 109–115): all vertices of
a chunk, from `OffsetForChunk(chunk)` to `OffsetForChunk(chunk+1)`. -/
def generateChunk (g : Grid3DParams) (coin : Nat → Bool) (chunk : Nat) :
    List (Nat × Nat) :=
  (List.range (offsetForChunk g (chunk + 1) - offsetForChunk g chunk)).flatMap
    fun i => generateEdgesForVertex g coin chunk (offsetForChunk g chunk + i)

/-- `num_chunks` of `Grid3D::Generate` (grid_3d.h line 49):
`(total_chunks_ / size) + (rank < leftover_chunks)`. -/
def numChunksOwned (k numPEs rank : Nat) : Nat :=
  k / numPEs + (if rank < k % numPEs then 1 else 0)

/-- `start_chunk` of `Grid3D::Generate` (grid_3d.h lines 50–51):
`rank * num_chunks + (rank >= leftover_chunks ? leftover_chunks : 0)`. -/
def startChunkOwned (k numPEs rank : Nat) : Nat :=
  rank * numChunksOwned k numPEs rank
    + (if rank ≥ k % numPEs then k % numPEs else 0)

/-- The chunk loop of `Grid3D::Generate` (grid_3d.h lines 70–72): one
participant's emitted edge list. -/
def generateParticipant (g : Grid3DParams) (coin : Nat → Bool)
    (k numPEs rank : Nat) : List (Nat × Nat) :=
  (List.range (numChunksOwned k numPEs rank)).flatMap
    fun i => generateChunk g coin (startChunkOwned k numPEs rank + i)

/-- `start_node_` (grid_3d.h line 66). -/
def startNode (g : Grid3DParams) (k numPEs rank : Nat) : Nat :=
  offsetForChunk g (startChunkOwned k numPEs rank)

/-- `end_node_` (grid_3d.h line 67): offset of `end_chunk = start_chunk
+ num_chunks`. -/
def endNode (g : Grid3DParams) (k numPEs rank : Nat) : Nat :=
  offsetForChunk g
    (startChunkOwned k numPEs rank + numChunksOwned k numPEs rank)

/-- `Grid3D::GetVertexRange` (grid_3d.h lines 83–85):
`(start_node_, start_node_ + num_nodes_ - 1)` with
`num_nodes_ = end_node_ - start_node_` (grid_3d.h line 68). -/
def vertexRangeOf (g : Grid3DParams) (k numPEs rank : Nat) : Nat × Nat :=
  (startNode g k numPEs rank,
   startNode g k numPEs rank
     + (endNode g k numPEs rank - startNode g k numPEs rank) - 1)

/-- Concatenation of all participants' emissions, as gathered by
`GeneratorIO::GatherPrint` (generator_io.h lines 91–119) before
sorting. -/
def gatherAll (g : Grid3DParams) (coin : Nat → Bool) (k numPEs : Nat) :
    List (Nat × Nat) :=
  (List.range numPEs).flatMap fun rank => generateParticipant g coin k numPEs rank

/-- Lexicographic order on edge tuples, as used by `std::sort` over
`std::tuple<SInt, SInt>` (generator_io.h line 123). -/
def edgeLe (a b : Nat × Nat) : Bool :=
  a.1 < b.1 || (a.1 = b.1 && a.2 ≤ b.2)

/-- Insertion step of a sort equivalent to `std::sort` with `edgeLe`. -/
def insertEdgeSorted (e : Nat × Nat) : List (Nat × Nat) → List (Nat × Nat)
  | [] => [e]
  | f :: rest =>
    if edgeLe e f then e :: f :: rest else f :: insertEdgeSorted e rest

/-- Sorting of the gathered edges (`std::sort`, generator_io.h line 123),
modelled as insertion sort (same sorted result on our order). -/
def sortEdges : List (Nat × Nat) → List (Nat × Nat)
  | [] => []
  | e :: rest => insertEdgeSorted e (sortEdges rest)

/-- `std::unique` + `erase` (generator_io.h line 125): drop adjacent
duplicates. -/
def dedupAdjacent : List (Nat × Nat) → List (Nat × Nat)
  | [] => []
  | [e] => [e]
  | a :: b :: rest =>
    if a = b then dedupAdjacent (b :: rest)
    else a :: dedupAdjacent (b :: rest)

/-- The aggregated, sorted, deduplicated edge list produced at the root
by `GeneratorIO::GatherPrint` (generator_io.h lines 121–125). -/
def gatherOutput (g : Grid3DParams) (coin : Nat → Bool) (k numPEs : Nat) :
    List (Nat × Nat) :=
  dedupAdjacent (sortEdges (gatherAll g coin k numPEs))

/-! ### Edge sink (`GeneratorIO`, generator_io.h) -/

/-- State of `GeneratorIO<std::tuple<SInt, SInt>>` (generator_io.h
lines 83–89): degree histogram, edge list, edge counter. -/
structure GeneratorIOState where
  dist : List Nat
  edges : List (Nat × Nat)
  localNumEdges : Nat
deriving DecidableEq, Repr

/-- The `GeneratorIO` constructor (generator_io.h lines 34–36):
`local_num_edges_ = 0`, `dist_.resize(config_.dist_size)` (zeros). -/
def initGeneratorIOState (distSize : Nat) : GeneratorIOState :=
  { dist := List.replicate distSize 0, edges := [], localNumEdges := 0 }

/-- `GeneratorIO::UpdateDist` (generator_io.h lines 38–43): increment
`dist_[node_id]` when `node_id < dist_.size()`, always increment
`local_num_edges_`. -/
def updateDist (s : GeneratorIOState) (nodeId : Nat) : GeneratorIOState :=
  { s with
    dist := if nodeId < s.dist.length
            then s.dist.set nodeId (s.dist.getD nodeId 0 + 1)
            else s.dist
    localNumEdges := s.localNumEdges + 1 }

/-- `GeneratorIO::PushEdge` (generator_io.h lines 65–69): append the
edge, increment `local_num_edges_`. -/
def pushEdge (s : GeneratorIOState) (e : Nat × Nat) : GeneratorIOState :=
  { s with
    edges := s.edges ++ [e]
    localNumEdges := s.localNumEdges + 1 }

/-- `GeneratorIO::NumEdges` (generator_io.h lines 79–81):
`edges_.size() > 0 ? edges_.size() : local_num_edges_ / 2`. -/
def numEdgesOf (s : GeneratorIOState) : Nat :=
  if s.edges.length > 0 then s.edges.length else s.localNumEdges / 2

/-! ### Binary edge-list writer (`src/kagen/io/io.cpp`) -/

/-- One 64-bit unsigned word as written by `fwrite(&x, sizeof(SInt), 1, f)`. -/
def word64 (x : Nat) : Nat := x % 2 ^ 64

/-- `AppendBinaryEdgeList` (io.cpp lines 103–110): append, for each
edge in list order, the two 64-bit words `from + 1` and `to + 1`. -/
def appendBinaryEdgeList (file : List Nat) (edges : List (Nat × Nat)) :
    List Nat :=
  file ++ edges.flatMap fun e => [word64 (e.1 + 1), word64 (e.2 + 1)]

/-- `AppendBinaryEdgeListHeader` (io.cpp lines 112–121): append the two
64-bit words `number_of_nodes`, `number_of_edges`. -/
def appendBinaryEdgeListHeader (file : List Nat) (numNodes numEdges : Nat) :
    List Nat :=
  file ++ [word64 numNodes, word64 numEdges]

/-- One participant's file contents per `WriteBinaryEdgeList`
(io.cpp lines 124–153): a fresh file, the header when enabled, then the
edge records. `numNodes` and `numEdges` are the values the collectives
`FindNumberOfGlobalNodes` / `FindNumberOfGlobalEdges` deliver. -/
def writeBinaryEdgeListFile (withHeader : Bool) (numNodes numEdges : Nat)
    (edges : List (Nat × Nat)) : List Nat :=
  appendBinaryEdgeList
    (if withHeader then appendBinaryEdgeListHeader [] numNodes numEdges else [])
    edges

/-! ### Generator construction (`Grid3D::Grid3D`, grid_3d.h lines 27–29) -/

/-- The configuration fields the `Grid3D` constructor receives.  The
Bernoulli probability `p` is a `double` in the source; no construction-
time code reads it, so it is omitted here. -/
structure GenConfig where
  n : Nat
  k : Nat
  gridX : Nat
  gridY : Nat
  gridZ : Nat
  seed : Nat
deriving DecidableEq, Repr

/-- Possible construction failure, to make the specification's
"fatal at construction" statable. -/
inductive ConfigError where
  | invalid
deriving DecidableEq, Repr

/-- A constructed `Grid3D` generator: the stored configuration and the
edge sink initialised by the `GeneratorIO` member constructor. -/
structure Grid3DGen where
  config : GenConfig
  io : GeneratorIOState
deriving DecidableEq, Repr

/-- The `Grid3D` constructor (grid_3d.h lines 27–29).  Its body is
empty: it initialises the members `config_`, `rng_`, `io_`, `cb_` and
performs no validation of any kind.  The `GeneratorIO` member
constructor (generator_io.h lines 34–36) only resizes the histogram.
The `RNGWrapper` member constructor is not among the sources; modelled
from the spec: §4.1 describes the randomness component as stateless
pure functions with no construction-time failure conditions, so its
construction is modelled as storing the configuration with no checks.
Hence construction always succeeds. -/
def grid3dConstruct (c : GenConfig) (distSize : Nat) :
    Except ConfigError Grid3DGen :=
  .ok { config := c, io := initGeneratorIOState distSize }


/-! ## Theorems -/

/-! ### Helper lemmas for the edge sink -/

/-- Folding `pushEdge` appends the pushed edges and counts them. -/
theorem foldl_pushEdge_spec (es : List (Nat × Nat)) (s : GeneratorIOState) :
    (es.foldl pushEdge s).edges = s.edges ++ es ∧
    (es.foldl pushEdge s).localNumEdges = s.localNumEdges + es.length := by
  induction es generalizing s with
  | nil => simp
  | cons e rest ih =>
    have h := ih (pushEdge s e)
    simp only [List.foldl_cons] at *
    refine ⟨?_, ?_⟩
    · rw [h.1]; simp [pushEdge]
    · rw [h.2]; simp [pushEdge]; omega

/-- Folding `updateDist` leaves the edge list alone and counts the calls. -/
theorem foldl_updateDist_spec (ns : List Nat) (s : GeneratorIOState) :
    (ns.foldl updateDist s).edges = s.edges ∧
    (ns.foldl updateDist s).localNumEdges = s.localNumEdges + ns.length := by
  induction ns generalizing s with
  | nil => simp
  | cons nd rest ih =>
    have h := ih (updateDist s nd)
    simp only [List.foldl_cons] at *
    refine ⟨?_, ?_⟩
    · rw [h.1]; simp [updateDist]
    · rw [h.2]; simp [updateDist]; omega

/-! ### Claim theorems: hashing, distribution, sink, writer, construction -/

/-- C1: the `Grid3D` emission decision is symmetric in its arguments:
`GenerateEdge(u, v)` and `GenerateEdge(v, u)` compute the same
`edge_seed = min(u,v)·X·Y·Z + max(u,v)`, hence hash the same value and
make the same emission decision, for every hash function, Bernoulli
sampler and seed. -/
theorem grid3d_edge_decision_symmetric (hash : Nat → Nat)
    (binom : Nat → Bool) (seed : Nat) (g : Grid3DParams) (u v : Nat) :
    edgeSeed g u v = min u v * (g.totalX * g.totalY * g.totalZ) + max u v ∧
    edgeSeed g u v = edgeSeed g v u ∧
    emitDecision hash binom seed g u v = emitDecision hash binom seed g v u := by
  refine ⟨by unfold edgeSeed; ring, ?_, ?_⟩
  · unfold edgeSeed; rw [Nat.min_comm, Nat.max_comm]
  · unfold emitDecision edgeSeed; rw [Nat.min_comm, Nat.max_comm]

/-- C4, counterexample: with `k = 5` chunks and `P = 3` participants,
rank 1 starts at chunk `2` in the code, while the claimed formula
`rank·num + min(rank, k mod P)` yields `1·2 + 1 = 3`. -/
theorem chunk_start_formula_cex :
    startChunkOwned 5 3 1 ≠ 1 * numChunksOwned 5 3 1 + min 1 (5 % 3) := by
  decide

/-- C4, amended: participant `rank` owns
`num = ⌊k/P⌋ + (1 if rank < k mod P else 0)` contiguous chunks and its
first owned chunk is `rank·⌊k/P⌋ + min(rank, k mod P)` (the quotient,
not `num`, multiplies the rank). -/
theorem chunk_distribution_formula (k numPEs rank : Nat) :
    numChunksOwned k numPEs rank
      = k / numPEs + (if rank < k % numPEs then 1 else 0) ∧
    startChunkOwned k numPEs rank
      = rank * (k / numPEs) + min rank (k % numPEs) := by
  refine ⟨rfl, ?_⟩
  unfold startChunkOwned numChunksOwned
  rcases Nat.lt_or_ge rank (k % numPEs) with h | h
  · rw [if_pos h, if_neg (Nat.not_le.mpr h), Nat.mul_add, Nat.mul_one]
    omega
  · rw [if_neg (Nat.not_lt.mpr h), if_pos h, Nat.add_zero]
    omega

/-- C6: `NumEdges()` returns the edge-list length after a positive
number of `PushEdge` calls, and half the increment count after a
sequence of `UpdateDist` calls with no `PushEdge` calls. -/
theorem generator_io_num_edges (distSize e : Nat) (es : List (Nat × Nat))
    (ns : List Nat) :
    (es.length = e → 0 < e →
      numEdgesOf (es.foldl pushEdge (initGeneratorIOState distSize)) = e) ∧
    (ns.length = 2 * e →
      numEdgesOf (ns.foldl updateDist (initGeneratorIOState distSize)) = e) := by
  constructor
  · intro hlen hpos
    have h := foldl_pushEdge_spec es (initGeneratorIOState distSize)
    unfold numEdgesOf
    rw [h.1]
    simp only [initGeneratorIOState, List.nil_append]
    rw [if_pos (by omega)]
    omega
  · intro hlen
    have h := foldl_updateDist_spec ns (initGeneratorIOState distSize)
    unfold numEdgesOf
    rw [h.1, h.2]
    simp [initGeneratorIOState]
    omega

/-- C6, witness: one pushed edge gives `NumEdges() = 1`; two
`UpdateDist` calls give `NumEdges() = 1`. -/
theorem generator_io_num_edges_witness :
    numEdgesOf ([((0 : Nat), (1 : Nat))].foldl pushEdge
      (initGeneratorIOState 10)) = 1 ∧
    numEdgesOf ([(3 : Nat), 4].foldl updateDist
      (initGeneratorIOState 10)) = 1 :=
  ⟨(generator_io_num_edges 10 1 [(0, 1)] [3, 4]).1 rfl (by decide),
   (generator_io_num_edges 10 1 [(0, 1)] [3, 4]).2 rfl⟩

/-- C10: `UpdateDist(node_id)` increments the histogram entry
`dist[node_id]` by one and leaves all other entries unchanged when
`node_id < dist_.size()`, leaves the whole histogram unchanged when
`node_id ≥ dist_.size()`, and in both cases increments
`local_num_edges_` by exactly one (out-of-range degree contributions
are dropped from the histogram but still counted). -/
theorem update_dist_frame (s : GeneratorIOState) (nodeId : Nat) :
    (updateDist s nodeId).localNumEdges = s.localNumEdges + 1 ∧
    (updateDist s nodeId).edges = s.edges ∧
    (updateDist s nodeId).dist.length = s.dist.length ∧
    (nodeId < s.dist.length →
      (updateDist s nodeId).dist.getD nodeId 0 = s.dist.getD nodeId 0 + 1 ∧
      ∀ j, j ≠ nodeId →
        (updateDist s nodeId).dist.getD j 0 = s.dist.getD j 0) ∧
    (s.dist.length ≤ nodeId → (updateDist s nodeId).dist = s.dist) := by
  unfold updateDist
  refine ⟨rfl, rfl, ?_, ?_, ?_⟩
  · by_cases h : nodeId < s.dist.length <;> simp [h]
  · intro h
    refine ⟨?_, ?_⟩
    · simp only [if_pos h]
      rw [List.getD_eq_getElem?_getD, List.getD_eq_getElem?_getD,
        List.getElem?_set_self, List.getElem?_eq_getElem h]
      · simp
      · simpa using h
    · intro j hj
      simp only [if_pos h]
      rw [List.getD_eq_getElem?_getD, List.getD_eq_getElem?_getD,
        List.getElem?_set_ne (fun he => hj he.symm)]
      rw [List.getD_eq_getElem?_getD]
  · intro h
    simp [Nat.not_lt.mpr h]

/-- C10, witness: at a concrete state, an in-range id bumps its own
entry only, and an out-of-range id leaves the histogram unchanged. -/
theorem update_dist_frame_witness :
    (updateDist ⟨[5, 7], [], 3⟩ 1).localNumEdges = 3 + 1 ∧
    ((updateDist ⟨[5, 7], [], 3⟩ 1).dist.getD 1 0 = 7 + 1 ∧
      (updateDist ⟨[5, 7], [], 3⟩ 1).dist.getD 0 0 = 5) ∧
    (updateDist ⟨[5, 7], [], 3⟩ 9).dist = [5, 7] := by
  have h1 := update_dist_frame ⟨[5, 7], [], 3⟩ 1
  have h9 := update_dist_frame ⟨[5, 7], [], 3⟩ 9
  refine ⟨h1.1, ⟨?_, ?_⟩, h9.2.2.2.2 (by decide)⟩
  · exact ((h1.2.2.2.1 (by decide)).1.trans (by decide))
  · exact ((h1.2.2.2.1 (by decide)).2 0 (by decide)).trans (by decide)

/-- C9: the binary edge-list file consists of, when the header is
enabled, exactly the two 64-bit words `n` and `m` followed by, for each
edge of the list in order, exactly the two 64-bit words `u + 1` and
`v + 1`; with the header disabled only the edge records appear. -/
theorem binary_edge_list_format (edges : List (Nat × Nat)) (n m : Nat)
    (hn : n < 2 ^ 64) (hm : m < 2 ^ 64)
    (hfit : ∀ e ∈ edges, e.1 + 1 < 2 ^ 64 ∧ e.2 + 1 < 2 ^ 64) :
    writeBinaryEdgeListFile true n m edges
      = [n, m] ++ edges.flatMap (fun e => [e.1 + 1, e.2 + 1]) ∧
    writeBinaryEdgeListFile false n m edges
      = edges.flatMap (fun e => [e.1 + 1, e.2 + 1]) := by
  have key : edges.flatMap (fun e => [word64 (e.1 + 1), word64 (e.2 + 1)])
      = edges.flatMap (fun e => [e.1 + 1, e.2 + 1]) := by
    induction edges with
    | nil => rfl
    | cons e rest ih =>
      have he := hfit e (List.mem_cons_self e rest)
      simp only [List.flatMap_cons] at *
      rw [ih (fun x hx => hfit x (List.mem_cons_of_mem e hx))]
      unfold word64
      rw [Nat.mod_eq_of_lt he.1, Nat.mod_eq_of_lt he.2]
  unfold writeBinaryEdgeListFile appendBinaryEdgeList appendBinaryEdgeListHeader
  rw [key]
  unfold word64
  rw [Nat.mod_eq_of_lt hn, Nat.mod_eq_of_lt hm]
  simp

/-- C9, witness: a one-edge list with header `n = 5`, `m = 1`. -/
theorem binary_edge_list_format_witness :
    writeBinaryEdgeListFile true 5 1 [((0 : Nat), (2 : Nat))]
      = [5, 1] ++ [((0 : Nat), (2 : Nat))].flatMap
          (fun e => [e.1 + 1, e.2 + 1]) :=
  (binary_edge_list_format [(0, 2)] 5 1 (by norm_num) (by norm_num)
    (by intro e he; simp at he; subst he; norm_num)).1

/-- C8, counterexample: constructing `Grid3D` with an invalid
configuration — here `n = 0`, a chunk count `k = 2` that is not a
perfect cube, and a grid dimension `grid_x = 0` — succeeds rather than
failing fatally, and generation then runs to completion (for `k = 2`
the truncated cube root is `1`; the run over both chunks of the empty
grid emits nothing), so nothing fails before generation begins. -/
theorem grid3d_construct_no_validation_cex :
    grid3dConstruct ⟨0, 2, 0, 1, 1, 1⟩ 10
      = .ok ⟨⟨0, 2, 0, 1, 1, 1⟩, initGeneratorIOState 10⟩ ∧
    gatherAll ⟨0, 1, 1, 1, false⟩ (fun _ => true) 2 1 = [] := by
  refine ⟨rfl, by decide⟩

/-- C8, amended: the `Grid3D` constructor performs no validation at
all — every configuration, valid or not, is accepted and construction
always succeeds (the constructor body is empty; generation proceeds
regardless). -/
theorem grid3d_construct_always_succeeds (c : GenConfig) (distSize : Nat) :
    grid3dConstruct c distSize
      = .ok ⟨c, initGeneratorIOState distSize⟩ := rfl

/-! ### Chunk-offset machinery -/

/-- Axis start coordinates advance by the per-chunk extent. -/
theorem startX_succ (g : Grid3DParams) (cx : Nat) :
    startX g (cx + 1) = startX g cx + chunkXs g cx := by
  unfold startX chunkXs
  rw [Nat.add_mul, Nat.one_mul]
  rcases Nat.lt_or_ge cx (remainingX g) with h | h
  · rw [if_pos h]; omega
  · rw [if_neg (Nat.not_lt.mpr h)]; omega

/-- Axis start coordinates advance by the per-chunk extent (y-axis). -/
theorem startY_succ (g : Grid3DParams) (cy : Nat) :
    startY g (cy + 1) = startY g cy + chunkYs g cy := by
  unfold startY chunkYs
  rw [Nat.add_mul, Nat.one_mul]
  rcases Nat.lt_or_ge cy (remainingY g) with h | h
  · rw [if_pos h]; omega
  · rw [if_neg (Nat.not_lt.mpr h)]; omega

/-- Axis start coordinates advance by the per-chunk extent (z-axis). -/
theorem startZ_succ (g : Grid3DParams) (cz : Nat) :
    startZ g (cz + 1) = startZ g cz + chunkZs g cz := by
  unfold startZ chunkZs
  rw [Nat.add_mul, Nat.one_mul]
  rcases Nat.lt_or_ge cz (remainingZ g) with h | h
  · rw [if_pos h]; omega
  · rw [if_neg (Nat.not_lt.mpr h)]; omega

/-- Column 0 starts at coordinate 0. -/
theorem startX_zero (g : Grid3DParams) : startX g 0 = 0 := by
  simp [startX]

/-- Row 0 starts at coordinate 0. -/
theorem startY_zero (g : Grid3DParams) : startY g 0 = 0 := by
  simp [startY]

/-- Layer 0 starts at coordinate 0. -/
theorem startZ_zero (g : Grid3DParams) : startZ g 0 = 0 := by
  simp [startZ]

/-- The `d`-th column starts exactly at the axis length. -/
theorem startX_top (g : Grid3DParams) (hd : 1 ≤ g.chunksPerDim) :
    startX g g.chunksPerDim = g.totalX := by
  unfold startX xPerChunk remainingX
  have h2 := Nat.div_add_mod g.totalX g.chunksPerDim
  have h3 := Nat.mod_lt g.totalX (show 0 < g.chunksPerDim from hd)
  omega

/-- The `d`-th row starts exactly at the axis length. -/
theorem startY_top (g : Grid3DParams) (hd : 1 ≤ g.chunksPerDim) :
    startY g g.chunksPerDim = g.totalY := by
  unfold startY yPerChunk remainingY
  have h2 := Nat.div_add_mod g.totalY g.chunksPerDim
  have h3 := Nat.mod_lt g.totalY (show 0 < g.chunksPerDim from hd)
  omega

/-- The `d`-th layer starts exactly at the axis length. -/
theorem startZ_top (g : Grid3DParams) (hd : 1 ≤ g.chunksPerDim) :
    startZ g g.chunksPerDim = g.totalZ := by
  unfold startZ zPerChunk remainingZ
  have h2 := Nat.div_add_mod g.totalZ g.chunksPerDim
  have h3 := Nat.mod_lt g.totalZ (show 0 < g.chunksPerDim from hd)
  omega

/-- Axis start coordinates are monotone. -/
theorem startX_mono (g : Grid3DParams) {a b : Nat} (hab : a ≤ b) :
    startX g a ≤ startX g b := by
  induction b with
  | zero => simp_all
  | succ n ih =>
    by_cases h : a ≤ n
    · exact (ih h).trans (by rw [startX_succ]; exact Nat.le_add_right _ _)
    · have ha : a = n + 1 := by omega
      subst ha; exact le_refl _

/-- Axis start coordinates are monotone (y-axis). -/
theorem startY_mono (g : Grid3DParams) {a b : Nat} (hab : a ≤ b) :
    startY g a ≤ startY g b := by
  induction b with
  | zero => simp_all
  | succ n ih =>
    by_cases h : a ≤ n
    · exact (ih h).trans (by rw [startY_succ]; exact Nat.le_add_right _ _)
    · have ha : a = n + 1 := by omega
      subst ha; exact le_refl _

/-- Start coordinates of valid columns stay within the axis. -/
theorem startX_le_total (g : Grid3DParams) (hd : 1 ≤ g.chunksPerDim)
    {cx : Nat} (h : cx ≤ g.chunksPerDim) : startX g cx ≤ g.totalX := by
  exact (startX_mono g h).trans (le_of_eq (startX_top g hd))

/-- Start coordinates of valid rows stay within the axis. -/
theorem startY_le_total (g : Grid3DParams) (hd : 1 ≤ g.chunksPerDim)
    {cy : Nat} (h : cy ≤ g.chunksPerDim) : startY g cy ≤ g.totalY := by
  exact (startY_mono g h).trans (le_of_eq (startY_top g hd))

/-- Decoded chunk coordinates recompose to the chunk id. -/
theorem decode_recompose (g : Grid3DParams) (c : Nat) :
    decodeX g c
      + g.chunksPerDim * (decodeY g c + g.chunksPerDim * decodeZ g c) = c := by
  unfold decodeX decodeY decodeZ
  rw [← Nat.div_div_eq_div_mul,
    Nat.mod_add_div (c / g.chunksPerDim) g.chunksPerDim]
  exact Nat.mod_add_div c g.chunksPerDim

/-- x-component of decoding an encoded chunk id. -/
theorem decodeX_encode (g : Grid3DParams) {x : Nat} (m : Nat)
    (hx : x < g.chunksPerDim) :
    decodeX g (x + g.chunksPerDim * m) = x := by
  unfold decodeX
  rw [Nat.add_mul_mod_self_left, Nat.mod_eq_of_lt hx]

/-- y-component of decoding an encoded chunk id. -/
theorem decodeY_encode (g : Grid3DParams) {x y : Nat} (z : Nat)
    (hx : x < g.chunksPerDim) (hy : y < g.chunksPerDim) :
    decodeY g (x + g.chunksPerDim * (y + g.chunksPerDim * z)) = y := by
  unfold decodeY
  rw [Nat.add_mul_div_left _ _ (show 0 < g.chunksPerDim by omega),
    Nat.div_eq_of_lt hx, Nat.zero_add, Nat.add_mul_mod_self_left,
    Nat.mod_eq_of_lt hy]

/-- z-component of decoding an encoded chunk id. -/
theorem decodeZ_encode (g : Grid3DParams) {x y : Nat} (z : Nat)
    (hx : x < g.chunksPerDim) (hy : y < g.chunksPerDim) :
    decodeZ g (x + g.chunksPerDim * (y + g.chunksPerDim * z)) = z := by
  unfold decodeZ
  rw [← Nat.div_div_eq_div_mul,
    Nat.add_mul_div_left _ _ (show 0 < g.chunksPerDim by omega),
    Nat.div_eq_of_lt hx, Nat.zero_add,
    Nat.add_mul_div_left _ _ (show 0 < g.chunksPerDim by omega),
    Nat.div_eq_of_lt hy, Nat.zero_add]

/-- Decoding a successor chunk id: either the x-coordinate advances, or
it wraps and the y-coordinate advances, or both wrap and the
z-coordinate advances. -/
theorem decode_succ (g : Grid3DParams) (hd : 1 ≤ g.chunksPerDim) (c : Nat) :
    (decodeX g c + 1 < g.chunksPerDim ∧
       decodeX g (c + 1) = decodeX g c + 1 ∧
       decodeY g (c + 1) = decodeY g c ∧
       decodeZ g (c + 1) = decodeZ g c) ∨
    (decodeX g c + 1 = g.chunksPerDim ∧ decodeY g c + 1 < g.chunksPerDim ∧
       decodeX g (c + 1) = 0 ∧
       decodeY g (c + 1) = decodeY g c + 1 ∧
       decodeZ g (c + 1) = decodeZ g c) ∨
    (decodeX g c + 1 = g.chunksPerDim ∧ decodeY g c + 1 = g.chunksPerDim ∧
       decodeX g (c + 1) = 0 ∧ decodeY g (c + 1) = 0 ∧
       decodeZ g (c + 1) = decodeZ g c + 1) := by
  have hcx : decodeX g c < g.chunksPerDim := Nat.mod_lt _ hd
  have hcy : decodeY g c < g.chunksPerDim := Nat.mod_lt _ hd
  have hrec := decode_recompose g c
  by_cases h1 : decodeX g c + 1 < g.chunksPerDim
  · left
    have hc1 : c + 1 = (decodeX g c + 1)
        + g.chunksPerDim * (decodeY g c + g.chunksPerDim * decodeZ g c) := by
      omega
    refine ⟨h1, ?_, ?_, ?_⟩
    · rw [hc1]; exact decodeX_encode g _ h1
    · rw [hc1]; exact decodeY_encode g _ h1 hcy
    · rw [hc1]; exact decodeZ_encode g _ h1 hcy
  · have hx1 : decodeX g c + 1 = g.chunksPerDim := by omega
    by_cases h2 : decodeY g c + 1 < g.chunksPerDim
    · right; left
      have hc1 : c + 1 = 0
          + g.chunksPerDim * ((decodeY g c + 1) + g.chunksPerDim * decodeZ g c) := by
        have hexp : g.chunksPerDim * (decodeY g c + g.chunksPerDim * decodeZ g c)
            = g.chunksPerDim * decodeY g c
              + g.chunksPerDim * (g.chunksPerDim * decodeZ g c) := by ring
        have hexp2 : g.chunksPerDim * ((decodeY g c + 1) + g.chunksPerDim * decodeZ g c)
            = g.chunksPerDim * decodeY g c + g.chunksPerDim
              + g.chunksPerDim * (g.chunksPerDim * decodeZ g c) := by ring
        omega
      refine ⟨hx1, h2, ?_, ?_, ?_⟩
      · rw [hc1]; exact decodeX_encode g _ (by omega)
      · rw [hc1]; exact decodeY_encode g _ (by omega) h2
      · rw [hc1]; exact decodeZ_encode g _ (by omega) h2
    · have hy1 : decodeY g c + 1 = g.chunksPerDim := by omega
      right; right
      have hc1 : c + 1 = 0
          + g.chunksPerDim * (0 + g.chunksPerDim * (decodeZ g c + 1)) := by
        have hexp : g.chunksPerDim * (decodeY g c + g.chunksPerDim * decodeZ g c)
            = g.chunksPerDim * decodeY g c
              + g.chunksPerDim * (g.chunksPerDim * decodeZ g c) := by ring
        have hexp2 : g.chunksPerDim * (0 + g.chunksPerDim * (decodeZ g c + 1))
            = g.chunksPerDim * (g.chunksPerDim * decodeZ g c)
              + g.chunksPerDim * g.chunksPerDim := by ring
        have hexp3 : g.chunksPerDim * g.chunksPerDim
            = g.chunksPerDim * decodeY g c + g.chunksPerDim := by
          calc g.chunksPerDim * g.chunksPerDim
              = g.chunksPerDim * (decodeY g c + 1) := by rw [hy1]
            _ = g.chunksPerDim * decodeY g c + g.chunksPerDim := by ring
        omega
      refine ⟨hx1, hy1, ?_, ?_, ?_⟩
      · rw [hc1]; exact decodeX_encode g _ (by omega)
      · rw [hc1]; exact decodeY_encode g _ (by omega) (by omega)
      · rw [hc1]; exact decodeZ_encode g _ (by omega) (by omega)

/-- Closed form of the inclusion–exclusion offset: layers below, rows
in front within the layer, cells to the left within the row.  In
particular the unsigned subtraction in `OffsetForChunk` never
underflows. -/
theorem offsetForChunk_closed_form (g : Grid3DParams)
    (hd : 1 ≤ g.chunksPerDim) (c : Nat) :
    offsetForChunk g c
      = g.totalX * g.totalY * startZ g (decodeZ g c)
        + g.totalX * startY g (decodeY g c) * chunkZs g (decodeZ g c)
        + startX g (decodeX g c) * chunkYs g (decodeY g c)
            * chunkZs g (decodeZ g c) := by
  have hdx : decodeX g c < g.chunksPerDim := Nat.mod_lt _ hd
  have hdy : decodeY g c < g.chunksPerDim := Nat.mod_lt _ hd
  have hxle : startX g (decodeX g c) ≤ g.totalX :=
    startX_le_total g hd (Nat.le_of_lt hdx)
  have hyle : startY g (decodeY g c) ≤ g.totalY :=
    startY_le_total g hd (Nat.le_of_lt hdy)
  simp only [offsetForChunk]
  rw [startY_succ g (decodeY g c), startZ_succ g (decodeZ g c)]
  set X := g.totalX with hX
  set Y := g.totalY with hY
  set vx := startX g (decodeX g c) with hvx
  set vy := startY g (decodeY g c) with hvy
  set vz := startZ g (decodeZ g c) with hvz
  set ys := chunkYs g (decodeY g c) with hys
  set zs := chunkZs g (decodeZ g c) with hzs
  have hle : vx * vy * vz ≤ X * Y * vz :=
    Nat.mul_le_mul_right vz (Nat.mul_le_mul hxle hyle)
  have hring : X * vy * (vz + zs) + X * Y * vz + vx * (vy + ys) * (vz + zs)
        + vx * vy * vz
      = (X * vy * vz + vx * vy * (vz + zs) + vx * (vy + ys) * vz)
        + (X * Y * vz + X * vy * zs + vx * ys * zs) := by ring
  have hsub : X * vy * vz + vx * vy * (vz + zs) + vx * (vy + ys) * vz
      ≤ X * vy * (vz + zs) + X * Y * vz + vx * (vy + ys) * (vz + zs) := by
    linarith [hring, hle, Nat.zero_le (X * vy * zs), Nat.zero_le (vx * ys * zs)]
  zify [hsub]
  ring

/-- `OffsetForChunk(c + 1) = OffsetForChunk(c) + volume of chunk c`. -/
theorem offsetForChunk_succ (g : Grid3DParams) (hd : 1 ≤ g.chunksPerDim)
    (c : Nat) :
    offsetForChunk g (c + 1) = offsetForChunk g c + chunkVolume g c := by
  unfold chunkVolume
  rcases decode_succ g hd c with ⟨h1, hx, hy, hz⟩ | ⟨h1, h2, hx, hy, hz⟩ |
    ⟨h1, h2, hx, hy, hz⟩ <;>
    rw [offsetForChunk_closed_form g hd, offsetForChunk_closed_form g hd,
      hx, hy, hz]
  · rw [startX_succ]
    ring
  · rw [startY_succ, startX_zero]
    have hXtop : startX g (decodeX g c) + chunkXs g (decodeX g c)
        = g.totalX := by
      rw [← startX_succ, h1, startX_top g hd]
    set X := g.totalX
    set vx := startX g (decodeX g c)
    set xs := chunkXs g (decodeX g c)
    set vy := startY g (decodeY g c)
    set ys := chunkYs g (decodeY g c)
    set vz := startZ g (decodeZ g c)
    set zs := chunkZs g (decodeZ g c)
    have key : X * (vy + ys) * zs
        = X * vy * zs + vx * ys * zs + xs * ys * zs := by
      rw [← hXtop]; ring
    linarith [key]
  · rw [startZ_succ, startX_zero, startY_zero]
    have hXtop : startX g (decodeX g c) + chunkXs g (decodeX g c)
        = g.totalX := by
      rw [← startX_succ, h1, startX_top g hd]
    have hYtop : startY g (decodeY g c) + chunkYs g (decodeY g c)
        = g.totalY := by
      rw [← startY_succ, h2, startY_top g hd]
    set X := g.totalX
    set Y := g.totalY
    set vx := startX g (decodeX g c)
    set xs := chunkXs g (decodeX g c)
    set vy := startY g (decodeY g c)
    set ys := chunkYs g (decodeY g c)
    set vz := startZ g (decodeZ g c)
    set zs := chunkZs g (decodeZ g c)
    have key : X * Y * zs
        = X * vy * zs + vx * ys * zs + xs * ys * zs := by
      rw [← hXtop, ← hYtop]; ring
    linarith [key]

/-- Chunk offsets start at zero. -/
theorem offsetForChunk_zero (g : Grid3DParams) : offsetForChunk g 0 = 0 := by
  simp [offsetForChunk, decodeX, decodeY, decodeZ, startX, startY, startZ]

/-- Chunk offsets are monotone in the chunk id. -/
theorem offsetForChunk_mono (g : Grid3DParams) (hd : 1 ≤ g.chunksPerDim)
    {a b : Nat} (hab : a ≤ b) :
    offsetForChunk g a ≤ offsetForChunk g b := by
  induction b with
  | zero => simp_all
  | succ n ih =>
    by_cases h : a ≤ n
    · exact (ih h).trans
        (by rw [offsetForChunk_succ g hd]; exact Nat.le_add_right _ _)
    · have ha : a = n + 1 := by omega
      subst ha; exact le_refl _

/-- The offset of the one-past-the-last chunk is the vertex count. -/
theorem offsetForChunk_top (g : Grid3DParams) (hd : 1 ≤ g.chunksPerDim) :
    offsetForChunk g (g.chunksPerDim ^ 3)
      = g.totalX * g.totalY * g.totalZ := by
  have hd0 : 0 < g.chunksPerDim := hd
  have hdecx : decodeX g (g.chunksPerDim ^ 3) = 0 := by
    unfold decodeX
    rw [pow_succ, Nat.mul_mod_left]
  have hdecy : decodeY g (g.chunksPerDim ^ 3) = 0 := by
    unfold decodeY
    rw [pow_succ, Nat.mul_div_cancel _ hd0, pow_two, Nat.mul_mod_left]
  have hdecz : decodeZ g (g.chunksPerDim ^ 3) = g.chunksPerDim := by
    unfold decodeZ
    have : g.chunksPerDim ^ 3 = g.chunksPerDim * g.chunksPerDim * g.chunksPerDim := by
      ring
    rw [this, Nat.mul_div_cancel_left _ (Nat.mul_pos hd0 hd0)]
  rw [offsetForChunk_closed_form g hd, hdecx, hdecy, hdecz,
    startX_zero, startY_zero, startZ_top g hd]
  ring

/-- C3: for every chunk `c` of a `d³`-chunk decomposition, the offset
difference `OffsetForChunk(c+1) − OffsetForChunk(c)` equals the number
of lattice cells `xs·ys·zs` of chunk `c` (per-chunk quotient plus one
for the first remainder chunks of each axis), and `OffsetForChunk(k)`
equals `n = X·Y·Z`. -/
theorem grid3d_offset_chunk_volume (g : Grid3DParams) (k c : Nat)
    (hd : 1 ≤ g.chunksPerDim) (hk : k = g.chunksPerDim ^ 3)
    (hX : 1 ≤ g.totalX) (hY : 1 ≤ g.totalY) (hZ : 1 ≤ g.totalZ)
    (hc : c < k) :
    offsetForChunk g (c + 1) - offsetForChunk g c
      = chunkXs g (decodeX g c) * chunkYs g (decodeY g c)
          * chunkZs g (decodeZ g c)
    ∧ offsetForChunk g k = g.totalX * g.totalY * g.totalZ := by
  constructor
  · rw [offsetForChunk_succ g hd, Nat.add_sub_cancel_left]
    rfl
  · rw [hk]
    exact offsetForChunk_top g hd

/-- C3, witness: the 5×4×3 grid with `k = 8 = 2³` chunks at chunk 2. -/
theorem grid3d_offset_chunk_volume_witness :
    offsetForChunk ⟨5, 4, 3, 2, false⟩ 3 - offsetForChunk ⟨5, 4, 3, 2, false⟩ 2
      = chunkXs ⟨5, 4, 3, 2, false⟩ (decodeX ⟨5, 4, 3, 2, false⟩ 2)
          * chunkYs ⟨5, 4, 3, 2, false⟩ (decodeY ⟨5, 4, 3, 2, false⟩ 2)
          * chunkZs ⟨5, 4, 3, 2, false⟩ (decodeZ ⟨5, 4, 3, 2, false⟩ 2)
    ∧ offsetForChunk ⟨5, 4, 3, 2, false⟩ 8 = 5 * 4 * 3 :=
  grid3d_offset_chunk_volume ⟨5, 4, 3, 2, false⟩ 8 2 (by decide) (by decide)
    (by decide) (by decide) (by decide) (by decide)

/-! ### Chunk-to-participant distribution and the vertex-range partition -/

/-- The code's start chunk equals `rank·⌊k/P⌋ + min(rank, k mod P)`. -/
theorem startChunkOwned_eq (k numPEs r : Nat) :
    startChunkOwned k numPEs r
      = r * (k / numPEs) + min r (k % numPEs) := by
  unfold startChunkOwned numChunksOwned
  rcases Nat.lt_or_ge r (k % numPEs) with h | h
  · rw [if_pos h, if_neg (Nat.not_le.mpr h), Nat.mul_add, Nat.mul_one]
    omega
  · rw [if_neg (Nat.not_lt.mpr h), if_pos h, Nat.add_zero]
    omega

/-- Owned chunk blocks are contiguous: the next rank starts where the
previous rank's block ends. -/
theorem startChunkOwned_succ (k numPEs r : Nat) :
    startChunkOwned k numPEs (r + 1)
      = startChunkOwned k numPEs r + numChunksOwned k numPEs r := by
  rw [startChunkOwned_eq, startChunkOwned_eq]
  unfold numChunksOwned
  have e1 : (r + 1) * (k / numPEs) = r * (k / numPEs) + k / numPEs := by ring
  rcases Nat.lt_or_ge r (k % numPEs) with h | h
  · rw [if_pos h]; omega
  · rw [if_neg (Nat.not_lt.mpr h)]; omega

/-- Rank 0 starts at chunk 0. -/
theorem startChunkOwned_zero (k numPEs : Nat) :
    startChunkOwned k numPEs 0 = 0 := by
  rw [startChunkOwned_eq]
  omega

/-- The block of the one-past-the-last rank starts at `k`. -/
theorem startChunkOwned_top (k numPEs : Nat) (hP : 1 ≤ numPEs) :
    startChunkOwned k numPEs numPEs = k := by
  rw [startChunkOwned_eq]
  have h1 := Nat.div_add_mod k numPEs
  have h2 := Nat.mod_lt k (show 0 < numPEs from hP)
  omega

/-- Chunk 0 has a nonzero x-extent on a nonempty axis. -/
theorem chunkXs_zero_pos (g : Grid3DParams) (hd : 1 ≤ g.chunksPerDim)
    (hX : 1 ≤ g.totalX) : 1 ≤ chunkXs g 0 := by
  unfold chunkXs
  rcases Nat.eq_zero_or_pos (remainingX g) with h | h
  · rw [h]
    simp only [Nat.lt_irrefl, if_false]
    unfold xPerChunk
    unfold remainingX at h
    have h2 := Nat.div_add_mod g.totalX g.chunksPerDim
    rcases Nat.eq_zero_or_pos (g.totalX / g.chunksPerDim) with h3 | h3
    · rw [h3, Nat.mul_zero] at h2; omega
    · omega
  · rw [if_pos h]; omega

/-- Chunk 0 has a nonzero y-extent on a nonempty axis. -/
theorem chunkYs_zero_pos (g : Grid3DParams) (hd : 1 ≤ g.chunksPerDim)
    (hY : 1 ≤ g.totalY) : 1 ≤ chunkYs g 0 := by
  unfold chunkYs
  rcases Nat.eq_zero_or_pos (remainingY g) with h | h
  · rw [h]
    simp only [Nat.lt_irrefl, if_false]
    unfold yPerChunk
    unfold remainingY at h
    have h2 := Nat.div_add_mod g.totalY g.chunksPerDim
    rcases Nat.eq_zero_or_pos (g.totalY / g.chunksPerDim) with h3 | h3
    · rw [h3, Nat.mul_zero] at h2; omega
    · omega
  · rw [if_pos h]; omega

/-- Chunk 0 has a nonzero z-extent on a nonempty axis. -/
theorem chunkZs_zero_pos (g : Grid3DParams) (hd : 1 ≤ g.chunksPerDim)
    (hZ : 1 ≤ g.totalZ) : 1 ≤ chunkZs g 0 := by
  unfold chunkZs
  rcases Nat.eq_zero_or_pos (remainingZ g) with h | h
  · rw [h]
    simp only [Nat.lt_irrefl, if_false]
    unfold zPerChunk
    unfold remainingZ at h
    have h2 := Nat.div_add_mod g.totalZ g.chunksPerDim
    rcases Nat.eq_zero_or_pos (g.totalZ / g.chunksPerDim) with h3 | h3
    · rw [h3, Nat.mul_zero] at h2; omega
    · omega
  · rw [if_pos h]; omega

/-- Chunk 0 of a nonempty grid contains at least one vertex. -/
theorem chunkVolume_zero_pos (g : Grid3DParams) (hd : 1 ≤ g.chunksPerDim)
    (hX : 1 ≤ g.totalX) (hY : 1 ≤ g.totalY) (hZ : 1 ≤ g.totalZ) :
    1 ≤ chunkVolume g 0 := by
  unfold chunkVolume
  have hx0 : decodeX g 0 = 0 := Nat.zero_mod _
  have hy0 : decodeY g 0 = 0 := by
    unfold decodeY
    rw [Nat.zero_div, Nat.zero_mod]
  have hz0 : decodeZ g 0 = 0 := Nat.zero_div _
  rw [hx0, hy0, hz0]
  exact Nat.mul_pos
    (Nat.mul_pos (chunkXs_zero_pos g hd hX) (chunkYs_zero_pos g hd hY))
    (chunkZs_zero_pos g hd hZ)

/-- A step-monotone sequence is monotone. -/
theorem nat_mono_of_succ_le (s : Nat → Nat) (hs : ∀ r, s r ≤ s (r + 1))
    {a b : Nat} (hab : a ≤ b) : s a ≤ s b := by
  induction b with
  | zero =>
    have ha : a = 0 := by omega
    subst ha; exact le_refl _
  | succ n ih =>
    by_cases h : a ≤ n
    · exact (ih h).trans (hs n)
    · have ha : a = n + 1 := by omega
      subst ha; exact le_refl _

/-- Every value below the top of a step-monotone sequence falls in some
step interval. -/
theorem nat_mono_bucket (s : Nat → Nat) (hs : ∀ r, s r ≤ s (r + 1))
    (P x : Nat) (hx : s 0 ≤ x) (hP : x < s P) :
    ∃ r, r < P ∧ s r ≤ x ∧ x < s (r + 1) := by
  induction P with
  | zero => exact absurd hP (Nat.not_lt.mpr hx)
  | succ n ih =>
    by_cases h : x < s n
    · obtain ⟨r, hr, h1, h2⟩ := ih h
      exact ⟨r, Nat.lt_succ_of_lt hr, h1, h2⟩
    · exact ⟨n, Nat.lt_succ_self n, Nat.not_lt.mp h, hP⟩

/-- C5: with a perfect-cube chunk count and nonempty grid dimensions,
the inclusive vertex ranges `GetVertexRange()` reports on ranks
`0..P-1` partition `[0, n)` exactly: every vertex id lies in some
rank's range, every range lies inside `[0, n)`, and no vertex id lies
in two ranks' ranges (empty ranges of surplus ranks have
`last < first` and contain nothing). -/
theorem grid3d_vertex_ranges_partition (g : Grid3DParams) (k numPEs : Nat)
    (hd : 1 ≤ g.chunksPerDim) (hk : k = g.chunksPerDim ^ 3)
    (hP : 1 ≤ numPEs) (hX : 1 ≤ g.totalX) (hY : 1 ≤ g.totalY)
    (hZ : 1 ≤ g.totalZ) :
    (∀ x, x < g.totalX * g.totalY * g.totalZ →
       ∃ r, r < numPEs ∧ (vertexRangeOf g k numPEs r).1 ≤ x ∧
         x ≤ (vertexRangeOf g k numPEs r).2) ∧
    (∀ r x, r < numPEs → (vertexRangeOf g k numPEs r).1 ≤ x →
       x ≤ (vertexRangeOf g k numPEs r).2 →
       x < g.totalX * g.totalY * g.totalZ) ∧
    (∀ r1 r2 x, r1 < numPEs → r2 < numPEs →
       (vertexRangeOf g k numPEs r1).1 ≤ x →
       x ≤ (vertexRangeOf g k numPEs r1).2 →
       (vertexRangeOf g k numPEs r2).1 ≤ x →
       x ≤ (vertexRangeOf g k numPEs r2).2 → r1 = r2) := by
  set n := g.totalX * g.totalY * g.totalZ with hn
  set s : Nat → Nat :=
    fun r => offsetForChunk g (startChunkOwned k numPEs r) with hsdef
  have hssucc : ∀ r, s r ≤ s (r + 1) := by
    intro r
    show offsetForChunk g (startChunkOwned k numPEs r)
      ≤ offsetForChunk g (startChunkOwned k numPEs (r + 1))
    rw [startChunkOwned_succ]
    exact offsetForChunk_mono g hd (Nat.le_add_right _ _)
  have hs0 : s 0 = 0 := by
    show offsetForChunk g (startChunkOwned k numPEs 0) = 0
    rw [startChunkOwned_zero, offsetForChunk_zero]
  have hsP : s numPEs = n := by
    show offsetForChunk g (startChunkOwned k numPEs numPEs) = n
    rw [startChunkOwned_top k numPEs hP, hk, hn]
    exact offsetForChunk_top g hd
  have hk1 : 1 ≤ k := by
    rw [hk]; exact Nat.one_le_pow 3 _ hd
  have hs1' : 1 ≤ s 1 := by
    show 1 ≤ offsetForChunk g (startChunkOwned k numPEs 1)
    have hnum : 1 ≤ numChunksOwned k numPEs 0 := by
      unfold numChunksOwned
      have h1 := Nat.div_add_mod k numPEs
      rcases Nat.eq_zero_or_pos (k % numPEs) with hL | hL
      · have hq : 1 ≤ k / numPEs := by
          rcases Nat.eq_zero_or_pos (k / numPEs) with hq0 | hq0
          · exfalso
            rw [hq0, Nat.mul_zero, Nat.zero_add] at h1
            omega
          · exact hq0
        rw [hL]
        simp only [Nat.lt_irrefl, if_false]
        rw [Nat.add_zero]
        exact hq
      · rw [if_pos hL]
        exact Nat.le_add_left 1 _
    have hsc1 : 1 ≤ startChunkOwned k numPEs 1 := by
      have hstep : startChunkOwned k numPEs 1 = numChunksOwned k numPEs 0 := by
        rw [show (1 : Nat) = 0 + 1 from rfl, startChunkOwned_succ,
          startChunkOwned_zero, Nat.zero_add]
      rw [hstep]
      exact hnum
    have hoff1 : offsetForChunk g 1 = chunkVolume g 0 := by
      rw [show (1 : Nat) = 0 + 1 from rfl, offsetForChunk_succ g hd,
        offsetForChunk_zero, Nat.zero_add]
    have hF1 : 1 ≤ offsetForChunk g 1 := by
      rw [hoff1]
      exact chunkVolume_zero_pos g hd hX hY hZ
    exact hF1.trans (offsetForChunk_mono g hd hsc1)
  have hsr1 : ∀ r, 1 ≤ s (r + 1) := fun r =>
    hs1'.trans (nat_mono_of_succ_le s hssucc (by omega))
  have hmem : ∀ r x,
      ((vertexRangeOf g k numPEs r).1 ≤ x ∧
        x ≤ (vertexRangeOf g k numPEs r).2)
      ↔ (s r ≤ x ∧ x < s (r + 1)) := by
    intro r x
    have hend : endNode g k numPEs r = s (r + 1) := by
      show offsetForChunk g
          (startChunkOwned k numPEs r + numChunksOwned k numPEs r)
        = offsetForChunk g (startChunkOwned k numPEs (r + 1))
      rw [startChunkOwned_succ]
    have hpair : vertexRangeOf g k numPEs r
        = (s r, s r + (s (r + 1) - s r) - 1) := by
      unfold vertexRangeOf
      rw [hend]
      rfl
    rw [hpair]
    dsimp only
    have h1 := hssucc r
    have h2 := hsr1 r
    omega
  refine ⟨?_, ?_, ?_⟩
  · intro x hx
    obtain ⟨r, hr, h1, h2⟩ := nat_mono_bucket s hssucc numPEs x
      (by rw [hs0]; exact Nat.zero_le x) (by rw [hsP]; exact hx)
    have hm := (hmem r x).mpr ⟨h1, h2⟩
    exact ⟨r, hr, hm.1, hm.2⟩
  · intro r x hr h1 h2
    have h3 := (hmem r x).mp ⟨h1, h2⟩
    have h4 : s (r + 1) ≤ s numPEs := nat_mono_of_succ_le s hssucc (by omega)
    rw [hsP] at h4
    omega
  · intro r1 r2 x hr1 hr2 a1 a2 b1 b2
    have m1 := (hmem r1 x).mp ⟨a1, a2⟩
    have m2 := (hmem r2 x).mp ⟨b1, b2⟩
    by_contra hne
    rcases Nat.lt_or_ge r1 r2 with h | h
    · have hstep : s (r1 + 1) ≤ s r2 := nat_mono_of_succ_le s hssucc h
      omega
    · have hgt : r2 < r1 := by omega
      have hstep : s (r2 + 1) ≤ s r1 := nat_mono_of_succ_le s hssucc hgt
      omega

/-- C5, witness: vertex 25 of the 5×4×3 grid (`k = 8`, `P = 3`) lies in
exactly the range of some rank. -/
theorem grid3d_vertex_ranges_partition_witness :
    ∃ r, r < 3 ∧ (vertexRangeOf ⟨5, 4, 3, 2, false⟩ 8 3 r).1 ≤ 25 ∧
      25 ≤ (vertexRangeOf ⟨5, 4, 3, 2, false⟩ 8 3 r).2 :=
  (grid3d_vertex_ranges_partition ⟨5, 4, 3, 2, false⟩ 8 3 (by decide)
    (by decide) (by decide) (by decide) (by decide) (by decide)).1 25
    (by decide)


set_option maxHeartbeats 1000000

theorem box_decompose (xs ys : Nat) (lv : Nat) :
    lv % xs + (lv / xs) % ys * xs + lv / (xs * ys) * (xs * ys) = lv := by
  have h1 := Nat.mod_add_div lv xs
  have h2 := Nat.mod_add_div (lv / xs) ys
  rw [← Nat.div_div_eq_div_mul]
  have key : (lv / xs) % ys * xs + lv / xs / ys * (xs * ys)
      = xs * ((lv / xs) % ys + ys * (lv / xs / ys)) := by ring
  rw [h2] at key
  omega

theorem box_bound (xs ys zs a b c : Nat) (ha : a < xs) (hb : b < ys)
    (hc : c < zs) : a + b * xs + c * (xs * ys) < xs * ys * zs := by
  have h2 : (b + 1) * xs ≤ ys * xs := Nat.mul_le_mul_right xs hb
  have h3 : (c + 1) * (xs * ys) ≤ zs * (xs * ys) := Nat.mul_le_mul_right _ hc
  have e1 : (b + 1) * xs = b * xs + xs := by ring
  have e2 : (c + 1) * (xs * ys) = c * (xs * ys) + xs * ys := by ring
  have e3 : zs * (xs * ys) = xs * ys * zs := by ring
  have e4 : ys * xs = xs * ys := by ring
  omega

theorem localCoords_spec (xs ys zs lv : Nat) (hxs : 0 < xs) (hys : 0 < ys)
    (hlt : lv < xs * ys * zs) :
    lv % xs < xs ∧ (lv / xs) % ys < ys ∧ lv / (xs * ys) < zs ∧
    lv % xs + (lv / xs) % ys * xs + lv / (xs * ys) * (xs * ys) = lv := by
  refine ⟨Nat.mod_lt _ hxs, Nat.mod_lt _ hys, ?_, box_decompose xs ys lv⟩
  rw [Nat.div_lt_iff_lt_mul (Nat.mul_pos hxs hys)]
  calc lv < xs * ys * zs := hlt
  _ = zs * (xs * ys) := by ring

theorem local_shift_ne (off lv : Nat) (E : Int) (v vertex : Nat) (δ : Int)
    (hE : E = ↑lv + δ) (hδ : δ ≠ 0) (hnn : 0 ≤ E)
    (hv : off + E.toNat = v) (hvert : vertex = off + lv) : v ≠ vertex := by
  subst hE
  omega

theorem upper_chunk_ne (g : Grid3DParams) (hd : 1 ≤ g.chunksPerDim)
    (chunk vertex nc v lx ly lz : Nat) (dir : Direction)
    (hhi : vertex < offsetForChunk g (chunk + 1))
    (hnc : chunk + 1 ≤ nc)
    (hv : locateVertexInChunk g nc lx ly lz dir = v) : v ≠ vertex := by
  have h1 : offsetForChunk g (chunk + 1) ≤ offsetForChunk g nc :=
    offsetForChunk_mono g hd hnc
  have h2 : offsetForChunk g nc ≤ v := by
    rw [← hv]
    simp only [locateVertexInChunk]
    exact Nat.le_add_right _ _
  omega

theorem lower_chunk_ne (g : Grid3DParams) (hd : 1 ≤ g.chunksPerDim)
    (chunk vertex nc v enc : Nat)
    (hlo : offsetForChunk g chunk ≤ vertex)
    (hnc : nc + 1 ≤ chunk)
    (henc : enc < chunkVolume g nc)
    (hv : offsetForChunk g nc + enc = v) : v ≠ vertex := by
  have h1 := offsetForChunk_succ g hd nc
  have h2 : offsetForChunk g (nc + 1) ≤ offsetForChunk g chunk :=
    offsetForChunk_mono g hd hnc
  omega

theorem chunkXs_anti (g : Grid3DParams) {a b : Nat} (hab : a ≤ b) :
    chunkXs g b ≤ chunkXs g a := by
  unfold chunkXs
  rcases Nat.lt_or_ge a (remainingX g) with h | h
  · rw [if_pos h]
    rcases Nat.lt_or_ge b (remainingX g) with h2 | h2
    · rw [if_pos h2]
    · rw [if_neg (Nat.not_lt.mpr h2)]; omega
  · rw [if_neg (Nat.not_lt.mpr h), if_neg (by omega)]

theorem chunkYs_anti (g : Grid3DParams) {a b : Nat} (hab : a ≤ b) :
    chunkYs g b ≤ chunkYs g a := by
  unfold chunkYs
  rcases Nat.lt_or_ge a (remainingY g) with h | h
  · rw [if_pos h]
    rcases Nat.lt_or_ge b (remainingY g) with h2 | h2
    · rw [if_pos h2]
    · rw [if_neg (Nat.not_lt.mpr h2)]; omega
  · rw [if_neg (Nat.not_lt.mpr h), if_neg (by omega)]

theorem chunkZs_anti (g : Grid3DParams) {a b : Nat} (hab : a ≤ b) :
    chunkZs g b ≤ chunkZs g a := by
  unfold chunkZs
  rcases Nat.lt_or_ge a (remainingZ g) with h | h
  · rw [if_pos h]
    rcases Nat.lt_or_ge b (remainingZ g) with h2 | h2
    · rw [if_pos h2]
    · rw [if_neg (Nat.not_lt.mpr h2)]; omega
  · rw [if_neg (Nat.not_lt.mpr h), if_neg (by omega)]

theorem query_target_ne (g : Grid3DParams) (hper : g.periodic = false)
    (hd : 1 ≤ g.chunksPerDim) (chunk vertex u v : Nat) (dir : Direction)
    (hlo : offsetForChunk g chunk ≤ vertex)
    (hhi : vertex < offsetForChunk g (chunk + 1))
    (hq : queryInDirection g chunk vertex dir = some (u, v)) :
    u = vertex ∧ v ≠ vertex := by
  have hsucc := offsetForChunk_succ g hd chunk
  have hvol2 : chunkVolume g chunk
      = chunkXs g (decodeX g chunk) * chunkYs g (decodeY g chunk)
        * chunkZs g (decodeZ g chunk) := rfl
  have hlvlt : vertex - offsetForChunk g chunk < chunkVolume g chunk := by
    omega
  have hvpos : 0 < chunkXs g (decodeX g chunk) * chunkYs g (decodeY g chunk)
      * chunkZs g (decodeZ g chunk) := by
    rw [← hvol2]; omega
  have hxs : 0 < chunkXs g (decodeX g chunk) := by
    rcases Nat.eq_zero_or_pos (chunkXs g (decodeX g chunk)) with h | h
    · rw [h, Nat.zero_mul, Nat.zero_mul] at hvpos
      exact absurd hvpos (Nat.lt_irrefl 0)
    · exact h
  have hys : 0 < chunkYs g (decodeY g chunk) := by
    rcases Nat.eq_zero_or_pos (chunkYs g (decodeY g chunk)) with h | h
    · rw [h, Nat.mul_zero, Nat.zero_mul] at hvpos
      exact absurd hvpos (Nat.lt_irrefl 0)
    · exact h
  have hzs : 0 < chunkZs g (decodeZ g chunk) := by
    rcases Nat.eq_zero_or_pos (chunkZs g (decodeZ g chunk)) with h | h
    · rw [h, Nat.mul_zero] at hvpos
      exact absurd hvpos (Nat.lt_irrefl 0)
    · exact h
  obtain ⟨hlx, hly, hlz, hdec⟩ := localCoords_spec _ _ _
    (vertex - offsetForChunk g chunk) hxs hys (by rw [← hvol2]; exact hlvlt)
  have hdecI : ((vertex - offsetForChunk g chunk : Nat) : Int)
      = ↑((vertex - offsetForChunk g chunk) % chunkXs g (decodeX g chunk))
        + ↑((vertex - offsetForChunk g chunk) / chunkXs g (decodeX g chunk)
            % chunkYs g (decodeY g chunk)) * ↑(chunkXs g (decodeX g chunk))
        + ↑((vertex - offsetForChunk g chunk)
            / (chunkXs g (decodeX g chunk) * chunkYs g (decodeY g chunk)))
          * (↑(chunkXs g (decodeX g chunk)) * ↑(chunkYs g (decodeY g chunk))) := by
    exact_mod_cast hdec.symm
  have hrec := decode_recompose g chunk
  have hcxd : decodeX g chunk < g.chunksPerDim := Nat.mod_lt _ hd
  have hcyd : decodeY g chunk < g.chunksPerDim := Nat.mod_lt _ hd
  have he0 : (0:Int) ≤ ↑((vertex - offsetForChunk g chunk)
      / chunkXs g (decodeX g chunk) % chunkYs g (decodeY g chunk))
      * ↑(chunkXs g (decodeX g chunk)) :=
    mul_nonneg (Int.natCast_nonneg _) (Int.natCast_nonneg _)
  have hf0 : (0:Int) ≤ ↑((vertex - offsetForChunk g chunk)
      / (chunkXs g (decodeX g chunk) * chunkYs g (decodeY g chunk)))
      * (↑(chunkXs g (decodeX g chunk)) * ↑(chunkYs g (decodeY g chunk))) :=
    mul_nonneg (Int.natCast_nonneg _)
      (mul_nonneg (Int.natCast_nonneg _) (Int.natCast_nonneg _))
  have hxyI : (1:Int) ≤ ↑(chunkXs g (decodeX g chunk))
      * ↑(chunkYs g (decodeY g chunk)) := by
    exact_mod_cast Nat.mul_pos hxs hys
  cases dir
  case Right =>
    simp only [queryInDirection, dirX, dirY, dirZ, hper, add_zero,
      Bool.false_eq_true, if_false, Int.toNat_natCast] at hq
    split at hq
    case isTrue hcond =>
      simp only [isLocalVertex, Bool.not_eq_eq_eq_not, Bool.not_true,
        Bool.or_eq_false_iff, decide_eq_false_iff_not, not_lt, not_le] at hcond
      simp only [Option.some.injEq, Prod.mk.injEq] at hq
      refine ⟨hq.1.symm, ?_⟩
      refine local_shift_ne (offsetForChunk g chunk)
        (vertex - offsetForChunk g chunk) _ v vertex 1 ?_ ?_ ?_ hq.2 (by omega)
      · rw [hdecI]; ring
      · omega
      · omega
    case isFalse hcond =>
      split at hq
      case isTrue hvalid =>
        simp only [Option.some.injEq, Prod.mk.injEq] at hq
        refine ⟨hq.1.symm, ?_⟩
        have ht1 : ((decodeX g chunk : Int) + 1).toNat = decodeX g chunk + 1 := by
          omega
        have hNCeq : encodeChunk g ((decodeX g chunk : Int) + 1).toNat
            (decodeY g chunk) (decodeZ g chunk) = chunk + 1 := by
          rw [ht1]
          simp only [encodeChunk]
          have e1 : g.chunksPerDim * (decodeY g chunk
              + g.chunksPerDim * decodeZ g chunk)
              = decodeY g chunk * g.chunksPerDim
                + decodeZ g chunk * (g.chunksPerDim * g.chunksPerDim) := by ring
          omega
        exact upper_chunk_ne g hd chunk vertex _ v _ _ _ Direction.Right hhi
          (le_of_eq hNCeq.symm) hq.2
      case isFalse => exact absurd hq (by simp)
  case Left =>
    simp only [queryInDirection, dirX, dirY, dirZ, hper, add_zero,
      Bool.false_eq_true, if_false, Int.toNat_natCast] at hq
    split at hq
    case isTrue hcond =>
      simp only [isLocalVertex, Bool.not_eq_eq_eq_not, Bool.not_true,
        Bool.or_eq_false_iff, decide_eq_false_iff_not, not_lt, not_le] at hcond
      simp only [Option.some.injEq, Prod.mk.injEq] at hq
      refine ⟨hq.1.symm, ?_⟩
      refine local_shift_ne (offsetForChunk g chunk)
        (vertex - offsetForChunk g chunk) _ v vertex (-1) ?_ ?_ ?_ hq.2 (by omega)
      · rw [hdecI]; ring
      · omega
      · omega
    case isFalse hcond =>
      split at hq
      case isTrue hvalid =>
        simp only [isValidChunk, Bool.not_eq_eq_eq_not, Bool.not_true,
          Bool.or_eq_false_iff, decide_eq_false_iff_not, not_lt, not_le] at hvalid
        simp only [Option.some.injEq, Prod.mk.injEq] at hq
        obtain ⟨hu, hv⟩ := hq
        refine ⟨hu.symm, ?_⟩
        have hcx1 : 1 ≤ decodeX g chunk := by omega
        have ht1 : ((decodeX g chunk : Int) + -1).toNat
            = decodeX g chunk - 1 := by omega
        rw [ht1] at hv
        have hform : encodeChunk g (decodeX g chunk - 1) (decodeY g chunk)
            (decodeZ g chunk)
            = (decodeX g chunk - 1) + g.chunksPerDim * (decodeY g chunk
                + g.chunksPerDim * decodeZ g chunk) := by
          simp only [encodeChunk]; ring
        have hdx : decodeX g (encodeChunk g (decodeX g chunk - 1)
            (decodeY g chunk) (decodeZ g chunk)) = decodeX g chunk - 1 := by
          rw [hform]; exact decodeX_encode g _ (by omega)
        have hdy : decodeY g (encodeChunk g (decodeX g chunk - 1)
            (decodeY g chunk) (decodeZ g chunk)) = decodeY g chunk := by
          rw [hform]; exact decodeY_encode g _ (by omega) hcyd
        have hdz : decodeZ g (encodeChunk g (decodeX g chunk - 1)
            (decodeY g chunk) (decodeZ g chunk)) = decodeZ g chunk := by
          rw [hform]; exact decodeZ_encode g _ (by omega) hcyd
        have hNCrel : encodeChunk g (decodeX g chunk - 1) (decodeY g chunk)
            (decodeZ g chunk) + 1 = chunk := by
          simp only [encodeChunk]
          have e1 : g.chunksPerDim * (decodeY g chunk
              + g.chunksPerDim * decodeZ g chunk)
              = decodeY g chunk * g.chunksPerDim
                + decodeZ g chunk * (g.chunksPerDim * g.chunksPerDim) := by ring
          omega
        simp only [locateVertexInChunk] at hv
        rw [hdx, hdy] at hv
        have hxsa : chunkXs g (decodeX g chunk)
            ≤ chunkXs g (decodeX g chunk - 1) := chunkXs_anti g (by omega)
        have hvolN : chunkVolume g (encodeChunk g (decodeX g chunk - 1)
            (decodeY g chunk) (decodeZ g chunk))
            = chunkXs g (decodeX g chunk - 1) * chunkYs g (decodeY g chunk)
              * chunkZs g (decodeZ g chunk) := by
          unfold chunkVolume
          rw [hdx, hdy, hdz]
        refine lower_chunk_ne g hd chunk vertex _ v _ hlo (by omega) ?_ hv
        rw [hvolN]
        exact box_bound _ _ _ _ _ _ (by omega) hly hlz
      case isFalse => exact absurd hq (by simp)
  case Up =>
    simp only [queryInDirection, dirX, dirY, dirZ, hper, add_zero,
      Bool.false_eq_true, if_false, Int.toNat_natCast] at hq
    split at hq
    case isTrue hcond =>
      simp only [isLocalVertex, Bool.not_eq_eq_eq_not, Bool.not_true,
        Bool.or_eq_false_iff, decide_eq_false_iff_not, not_lt, not_le] at hcond
      simp only [Option.some.injEq, Prod.mk.injEq] at hq
      refine ⟨hq.1.symm, ?_⟩
      refine local_shift_ne (offsetForChunk g chunk)
        (vertex - offsetForChunk g chunk) _ v vertex
        (-↑(chunkXs g (decodeX g chunk))) ?_ ?_ ?_ hq.2 (by omega)
      · rw [hdecI]; ring
      · omega
      · have hmid : (0:Int) ≤ (↑((vertex - offsetForChunk g chunk)
            / chunkXs g (decodeX g chunk) % chunkYs g (decodeY g chunk)) + -1)
            * ↑(chunkXs g (decodeX g chunk)) :=
          mul_nonneg (by omega) (Int.natCast_nonneg _)
        omega
    case isFalse hcond =>
      split at hq
      case isTrue hvalid =>
        simp only [isValidChunk, Bool.not_eq_eq_eq_not, Bool.not_true,
          Bool.or_eq_false_iff, decide_eq_false_iff_not, not_lt, not_le] at hvalid
        simp only [Option.some.injEq, Prod.mk.injEq] at hq
        obtain ⟨hu, hv⟩ := hq
        refine ⟨hu.symm, ?_⟩
        have hcy1 : 1 ≤ decodeY g chunk := by omega
        have ht1 : ((decodeY g chunk : Int) + -1).toNat
            = decodeY g chunk - 1 := by omega
        rw [ht1] at hv
        have hform : encodeChunk g (decodeX g chunk) (decodeY g chunk - 1)
            (decodeZ g chunk)
            = decodeX g chunk + g.chunksPerDim * ((decodeY g chunk - 1)
                + g.chunksPerDim * decodeZ g chunk) := by
          simp only [encodeChunk]; ring
        have hdx : decodeX g (encodeChunk g (decodeX g chunk)
            (decodeY g chunk - 1) (decodeZ g chunk)) = decodeX g chunk := by
          rw [hform]; exact decodeX_encode g _ hcxd
        have hdy : decodeY g (encodeChunk g (decodeX g chunk)
            (decodeY g chunk - 1) (decodeZ g chunk)) = decodeY g chunk - 1 := by
          rw [hform]; exact decodeY_encode g _ hcxd (by omega)
        have hdz : decodeZ g (encodeChunk g (decodeX g chunk)
            (decodeY g chunk - 1) (decodeZ g chunk)) = decodeZ g chunk := by
          rw [hform]; exact decodeZ_encode g _ hcxd (by omega)
        have hNCrel : encodeChunk g (decodeX g chunk) (decodeY g chunk - 1)
            (decodeZ g chunk) + g.chunksPerDim = chunk := by
          simp only [encodeChunk]
          have e1 : g.chunksPerDim * (decodeY g chunk
              + g.chunksPerDim * decodeZ g chunk)
              = decodeY g chunk * g.chunksPerDim
                + decodeZ g chunk * (g.chunksPerDim * g.chunksPerDim) := by ring
          have e2 : decodeY g chunk * g.chunksPerDim
              = (decodeY g chunk - 1) * g.chunksPerDim + g.chunksPerDim := by
            calc decodeY g chunk * g.chunksPerDim
                = ((decodeY g chunk - 1) + 1) * g.chunksPerDim := by
                  congr 1; omega
              _ = (decodeY g chunk - 1) * g.chunksPerDim + g.chunksPerDim := by
                  ring
          omega
        simp only [locateVertexInChunk] at hv
        rw [hdx, hdy] at hv
        have hysa : chunkYs g (decodeY g chunk)
            ≤ chunkYs g (decodeY g chunk - 1) := chunkYs_anti g (by omega)
        have hvolN : chunkVolume g (encodeChunk g (decodeX g chunk)
            (decodeY g chunk - 1) (decodeZ g chunk))
            = chunkXs g (decodeX g chunk) * chunkYs g (decodeY g chunk - 1)
              * chunkZs g (decodeZ g chunk) := by
          unfold chunkVolume
          rw [hdx, hdy, hdz]
        refine lower_chunk_ne g hd chunk vertex _ v _ hlo (by omega) ?_ hv
        rw [hvolN]
        exact box_bound _ _ _ _ _ _ hlx (by omega) hlz
      case isFalse => exact absurd hq (by simp)
  case Down =>
    simp only [queryInDirection, dirX, dirY, dirZ, hper, add_zero,
      Bool.false_eq_true, if_false, Int.toNat_natCast] at hq
    split at hq
    case isTrue hcond =>
      simp only [isLocalVertex, Bool.not_eq_eq_eq_not, Bool.not_true,
        Bool.or_eq_false_iff, decide_eq_false_iff_not, not_lt, not_le] at hcond
      simp only [Option.some.injEq, Prod.mk.injEq] at hq
      refine ⟨hq.1.symm, ?_⟩
      refine local_shift_ne (offsetForChunk g chunk)
        (vertex - offsetForChunk g chunk) _ v vertex
        ↑(chunkXs g (decodeX g chunk)) ?_ ?_ ?_ hq.2 (by omega)
      · rw [hdecI]; ring
      · omega
      · have hmid : (0:Int) ≤ (↑((vertex - offsetForChunk g chunk)
            / chunkXs g (decodeX g chunk) % chunkYs g (decodeY g chunk)) + 1)
            * ↑(chunkXs g (decodeX g chunk)) :=
          mul_nonneg (by omega) (Int.natCast_nonneg _)
        omega
    case isFalse hcond =>
      split at hq
      case isTrue hvalid =>
        simp only [Option.some.injEq, Prod.mk.injEq] at hq
        refine ⟨hq.1.symm, ?_⟩
        have ht1 : ((decodeY g chunk : Int) + 1).toNat = decodeY g chunk + 1 := by
          omega
        have hNCeq : encodeChunk g (decodeX g chunk)
            ((decodeY g chunk : Int) + 1).toNat (decodeZ g chunk)
            = chunk + g.chunksPerDim := by
          rw [ht1]
          simp only [encodeChunk]
          have e1 : g.chunksPerDim * (decodeY g chunk
              + g.chunksPerDim * decodeZ g chunk)
              = decodeY g chunk * g.chunksPerDim
                + decodeZ g chunk * (g.chunksPerDim * g.chunksPerDim) := by ring
          have e2 : (decodeY g chunk + 1) * g.chunksPerDim
              = decodeY g chunk * g.chunksPerDim + g.chunksPerDim := by ring
          omega
        exact upper_chunk_ne g hd chunk vertex _ v _ _ _ Direction.Down hhi
          (by omega) hq.2
      case isFalse => exact absurd hq (by simp)
  case Front =>
    simp only [queryInDirection, dirX, dirY, dirZ, hper, add_zero,
      Bool.false_eq_true, if_false, Int.toNat_natCast] at hq
    split at hq
    case isTrue hcond =>
      simp only [isLocalVertex, Bool.not_eq_eq_eq_not, Bool.not_true,
        Bool.or_eq_false_iff, decide_eq_false_iff_not, not_lt, not_le] at hcond
      simp only [Option.some.injEq, Prod.mk.injEq] at hq
      refine ⟨hq.1.symm, ?_⟩
      refine local_shift_ne (offsetForChunk g chunk)
        (vertex - offsetForChunk g chunk) _ v vertex
        (-(↑(chunkXs g (decodeX g chunk)) * ↑(chunkYs g (decodeY g chunk))))
        ?_ ?_ ?_ hq.2 (by omega)
      · rw [hdecI]; ring
      · omega
      · have hmid : (0:Int) ≤ (↑((vertex - offsetForChunk g chunk)
            / (chunkXs g (decodeX g chunk) * chunkYs g (decodeY g chunk))) + -1)
            * (↑(chunkXs g (decodeX g chunk)) * ↑(chunkYs g (decodeY g chunk))) :=
          mul_nonneg (by omega) (by positivity)
        omega
    case isFalse hcond =>
      split at hq
      case isTrue hvalid =>
        simp only [isValidChunk, Bool.not_eq_eq_eq_not, Bool.not_true,
          Bool.or_eq_false_iff, decide_eq_false_iff_not, not_lt, not_le] at hvalid
        simp only [Option.some.injEq, Prod.mk.injEq] at hq
        obtain ⟨hu, hv⟩ := hq
        refine ⟨hu.symm, ?_⟩
        have hcz1 : 1 ≤ decodeZ g chunk := by omega
        have ht1 : ((decodeZ g chunk : Int) + -1).toNat
            = decodeZ g chunk - 1 := by omega
        rw [ht1] at hv
        have hform : encodeChunk g (decodeX g chunk) (decodeY g chunk)
            (decodeZ g chunk - 1)
            = decodeX g chunk + g.chunksPerDim * (decodeY g chunk
                + g.chunksPerDim * (decodeZ g chunk - 1)) := by
          simp only [encodeChunk]; ring
        have hdx : decodeX g (encodeChunk g (decodeX g chunk)
            (decodeY g chunk) (decodeZ g chunk - 1)) = decodeX g chunk := by
          rw [hform]; exact decodeX_encode g _ hcxd
        have hdy : decodeY g (encodeChunk g (decodeX g chunk)
            (decodeY g chunk) (decodeZ g chunk - 1)) = decodeY g chunk := by
          rw [hform]; exact decodeY_encode g _ hcxd hcyd
        have hdz : decodeZ g (encodeChunk g (decodeX g chunk)
            (decodeY g chunk) (decodeZ g chunk - 1)) = decodeZ g chunk - 1 := by
          rw [hform]; exact decodeZ_encode g _ hcxd hcyd
        have hNCrel : encodeChunk g (decodeX g chunk) (decodeY g chunk)
            (decodeZ g chunk - 1) + g.chunksPerDim * g.chunksPerDim = chunk := by
          simp only [encodeChunk]
          have e1 : g.chunksPerDim * (decodeY g chunk
              + g.chunksPerDim * decodeZ g chunk)
              = decodeY g chunk * g.chunksPerDim
                + decodeZ g chunk * (g.chunksPerDim * g.chunksPerDim) := by ring
          have e2 : decodeZ g chunk * (g.chunksPerDim * g.chunksPerDim)
              = (decodeZ g chunk - 1) * (g.chunksPerDim * g.chunksPerDim)
                + g.chunksPerDim * g.chunksPerDim := by
            calc decodeZ g chunk * (g.chunksPerDim * g.chunksPerDim)
                = ((decodeZ g chunk - 1) + 1)
                    * (g.chunksPerDim * g.chunksPerDim) := by
                  congr 1; omega
              _ = (decodeZ g chunk - 1) * (g.chunksPerDim * g.chunksPerDim)
                  + g.chunksPerDim * g.chunksPerDim := by ring
          omega
        simp only [locateVertexInChunk] at hv
        rw [hdx, hdy, hdz] at hv
        have hzsa : chunkZs g (decodeZ g chunk)
            ≤ chunkZs g (decodeZ g chunk - 1) := chunkZs_anti g (by omega)
        have hvolN : chunkVolume g (encodeChunk g (decodeX g chunk)
            (decodeY g chunk) (decodeZ g chunk - 1))
            = chunkXs g (decodeX g chunk) * chunkYs g (decodeY g chunk)
              * chunkZs g (decodeZ g chunk - 1) := by
          unfold chunkVolume
          rw [hdx, hdy, hdz]
        have hdd : 0 < g.chunksPerDim * g.chunksPerDim := Nat.mul_pos hd hd
        refine lower_chunk_ne g hd chunk vertex _ v _ hlo (by omega) ?_ hv
        rw [hvolN]
        exact box_bound _ _ _ _ _ _ hlx hly (by omega)
      case isFalse => exact absurd hq (by simp)
  case Back =>
    simp only [queryInDirection, dirX, dirY, dirZ, hper, add_zero,
      Bool.false_eq_true, if_false, Int.toNat_natCast] at hq
    split at hq
    case isTrue hcond =>
      simp only [isLocalVertex, Bool.not_eq_eq_eq_not, Bool.not_true,
        Bool.or_eq_false_iff, decide_eq_false_iff_not, not_lt, not_le] at hcond
      simp only [Option.some.injEq, Prod.mk.injEq] at hq
      refine ⟨hq.1.symm, ?_⟩
      refine local_shift_ne (offsetForChunk g chunk)
        (vertex - offsetForChunk g chunk) _ v vertex
        (↑(chunkXs g (decodeX g chunk)) * ↑(chunkYs g (decodeY g chunk)))
        ?_ ?_ ?_ hq.2 (by omega)
      · rw [hdecI]; ring
      · omega
      · have hmid : (0:Int) ≤ (↑((vertex - offsetForChunk g chunk)
            / (chunkXs g (decodeX g chunk) * chunkYs g (decodeY g chunk))) + 1)
            * (↑(chunkXs g (decodeX g chunk)) * ↑(chunkYs g (decodeY g chunk))) :=
          mul_nonneg (by omega) (by positivity)
        omega
    case isFalse hcond =>
      split at hq
      case isTrue hvalid =>
        simp only [Option.some.injEq, Prod.mk.injEq] at hq
        refine ⟨hq.1.symm, ?_⟩
        have ht1 : ((decodeZ g chunk : Int) + 1).toNat = decodeZ g chunk + 1 := by
          omega
        have hNCeq : encodeChunk g (decodeX g chunk) (decodeY g chunk)
            ((decodeZ g chunk : Int) + 1).toNat
            = chunk + g.chunksPerDim * g.chunksPerDim := by
          rw [ht1]
          simp only [encodeChunk]
          have e1 : g.chunksPerDim * (decodeY g chunk
              + g.chunksPerDim * decodeZ g chunk)
              = decodeY g chunk * g.chunksPerDim
                + decodeZ g chunk * (g.chunksPerDim * g.chunksPerDim) := by ring
          have e2 : (decodeZ g chunk + 1) * (g.chunksPerDim * g.chunksPerDim)
              = decodeZ g chunk * (g.chunksPerDim * g.chunksPerDim)
                + g.chunksPerDim * g.chunksPerDim := by ring
          omega
        have hdd : 0 < g.chunksPerDim * g.chunksPerDim := Nat.mul_pos hd hd
        exact upper_chunk_ne g hd chunk vertex _ v _ _ _ Direction.Back hhi
          (by omega) hq.2
      case isFalse => exact absurd hq (by simp)

theorem mem_generateEdgesForVertex (g : Grid3DParams) (coin : Nat → Bool)
    (chunk vertex u v : Nat)
    (h : (u, v) ∈ generateEdgesForVertex g coin chunk vertex) :
    ∃ dir, queryInDirection g chunk vertex dir = some (u, v)
      ∧ coin (edgeSeed g u v) = true := by
  unfold generateEdgesForVertex at h
  rw [List.mem_flatMap] at h
  obtain ⟨dir, _, hmem⟩ := h
  refine ⟨dir, ?_⟩
  rcases hquery : queryInDirection g chunk vertex dir with _ | ⟨s, t⟩
  · rw [hquery] at hmem
    simp at hmem
  · rw [hquery] at hmem
    dsimp only at hmem
    unfold generateEdge at hmem
    by_cases hc : coin (edgeSeed g s t) = true
    · rw [if_pos hc] at hmem
      simp only [List.mem_singleton, Prod.mk.injEq] at hmem
      obtain ⟨h1, h2⟩ := hmem
      subst h1; subst h2
      exact ⟨rfl, hc⟩
    · rw [if_neg hc] at hmem
      simp at hmem

theorem mem_generateChunk_vertex (g : Grid3DParams) (coin : Nat → Bool)
    (chunk u v : Nat) (h : (u, v) ∈ generateChunk g coin chunk) :
    ∃ vertex, offsetForChunk g chunk ≤ vertex
      ∧ vertex < offsetForChunk g (chunk + 1)
      ∧ (u, v) ∈ generateEdgesForVertex g coin chunk vertex := by
  unfold generateChunk at h
  rw [List.mem_flatMap] at h
  obtain ⟨i, hi, hmem⟩ := h
  rw [List.mem_range] at hi
  exact ⟨offsetForChunk g chunk + i, Nat.le_add_right _ _, by omega, hmem⟩

/-- C7, amended: with periodic boundaries disabled, every edge emitted
by the Grid3D sampler joins two distinct vertices (in periodic mode a
grid axis of extent 1 wraps a vertex onto itself, so the claim is
restricted to `periodic = false`). -/
theorem grid3d_no_self_loops_nonperiodic (g : Grid3DParams)
    (coin : Nat → Bool) (k numPEs rank u v : Nat)
    (hper : g.periodic = false) (hd : 1 ≤ g.chunksPerDim)
    (hmem : (u, v) ∈ generateParticipant g coin k numPEs rank) : u ≠ v := by
  unfold generateParticipant at hmem
  rw [List.mem_flatMap] at hmem
  obtain ⟨i, _, hmem⟩ := hmem
  obtain ⟨vertex, hlo, hhi, hmem⟩ := mem_generateChunk_vertex g coin _ u v hmem
  obtain ⟨dir, hquery, _⟩ := mem_generateEdgesForVertex g coin _ vertex u v hmem
  obtain ⟨hu, hne⟩ := query_target_ne g hper hd _ vertex u v dir hlo hhi hquery
  omega

/-- C7, witness: the edge (0, 1) emitted on the non-periodic 2×2×2 grid
joins distinct endpoints. -/
theorem grid3d_no_self_loops_witness : (0 : Nat) ≠ 1 :=
  grid3d_no_self_loops_nonperiodic ⟨2, 2, 2, 1, false⟩ (fun _ => true) 1 1 0 0 1
    rfl (by decide) (by decide)

/-- C7, counterexample: on the periodic 1×1×1 grid every direction
wraps vertex 0 onto itself, and with an accepting coin (`p = 1`) the
sampler emits the self-loop `(0, 0)` even though `self_loops` is false
(the flag is never consulted), refuting the claim for periodic mode. -/
theorem grid3d_self_loop_cex :
    ((0, 0) : Nat × Nat) ∈ generateParticipant ⟨1, 1, 1, 1, true⟩
      (fun _ => true) 1 1 0 := by decide
theorem encode_mod_left (X : Nat) {a : Nat} (m : Nat) (ha : a < X) :
    (a + X * m) % X = a := by
  rw [Nat.add_mul_mod_self_left, Nat.mod_eq_of_lt ha]

theorem encode_div_mod (X Y : Nat) {a b : Nat} (c : Nat) (ha : a < X)
    (hb : b < Y) : (a + X * (b + Y * c)) / X % Y = b := by
  rw [Nat.add_mul_div_left _ _ (show 0 < X by omega), Nat.div_eq_of_lt ha,
    Nat.zero_add, Nat.add_mul_mod_self_left, Nat.mod_eq_of_lt hb]

theorem encode_div_div (X Y : Nat) {a b : Nat} (c : Nat) (ha : a < X)
    (hb : b < Y) : (a + X * (b + Y * c)) / (X * Y) = c := by
  rw [← Nat.div_div_eq_div_mul,
    Nat.add_mul_div_left _ _ (show 0 < X by omega), Nat.div_eq_of_lt ha,
    Nat.zero_add, Nat.add_mul_div_left _ _ (show 0 < Y by omega),
    Nat.div_eq_of_lt hb, Nat.zero_add]

theorem mem_insertEdgeSorted (e a : Nat × Nat) (l : List (Nat × Nat)) :
    a ∈ insertEdgeSorted e l ↔ a = e ∨ a ∈ l := by
  induction l with
  | nil => simp [insertEdgeSorted]
  | cons f rest ih =>
    unfold insertEdgeSorted
    by_cases h : edgeLe e f = true
    · rw [if_pos h]
      simp [List.mem_cons]
    · rw [if_neg h]
      simp only [List.mem_cons, ih]
      tauto

theorem mem_sortEdges (a : Nat × Nat) (l : List (Nat × Nat)) :
    a ∈ sortEdges l ↔ a ∈ l := by
  induction l with
  | nil => simp [sortEdges]
  | cons e rest ih =>
    unfold sortEdges
    rw [mem_insertEdgeSorted, ih]
    simp [List.mem_cons]

theorem mem_dedupAdjacent (a : Nat × Nat) (l : List (Nat × Nat)) :
    a ∈ dedupAdjacent l ↔ a ∈ l := by
  induction l with
  | nil => simp [dedupAdjacent]
  | cons e rest ih =>
    cases rest with
    | nil => simp [dedupAdjacent]
    | cons f t =>
      unfold dedupAdjacent
      by_cases h : e = f
      · rw [if_pos h]
        rw [ih]
        subst h
        simp [List.mem_cons]
      · rw [if_neg h]
        simp only [List.mem_cons, ih]


/-! ### Chunk/local coordinates and inverses of the neighbor queries -/

theorem encodeChunk_eq (g : Grid3DParams) (x y z : Nat) :
    encodeChunk g x y z
      = x + g.chunksPerDim * (y + g.chunksPerDim * z) := by
  unfold encodeChunk
  ring

theorem decodeX_encodeChunk (g : Grid3DParams) (x y z : Nat)
    (hx : x < g.chunksPerDim) : decodeX g (encodeChunk g x y z) = x := by
  rw [encodeChunk_eq]
  exact decodeX_encode g _ hx

theorem decodeY_encodeChunk (g : Grid3DParams) (x y z : Nat)
    (hx : x < g.chunksPerDim) (hy : y < g.chunksPerDim) :
    decodeY g (encodeChunk g x y z) = y := by
  rw [encodeChunk_eq]
  exact decodeY_encode g _ hx hy

theorem decodeZ_encodeChunk (g : Grid3DParams) (x y z : Nat)
    (hx : x < g.chunksPerDim) (hy : y < g.chunksPerDim) :
    decodeZ g (encodeChunk g x y z) = z := by
  rw [encodeChunk_eq]
  exact decodeZ_encode g _ hx hy

theorem encodeChunk_lt (g : Grid3DParams) (x y z : Nat)
    (hx : x < g.chunksPerDim) (hy : y < g.chunksPerDim)
    (hz : z < g.chunksPerDim) :
    encodeChunk g x y z
      < g.chunksPerDim * g.chunksPerDim * g.chunksPerDim := by
  rw [encodeChunk_eq]
  have e1 : y + g.chunksPerDim * z + 1 ≤ g.chunksPerDim * g.chunksPerDim := by
    calc y + g.chunksPerDim * z + 1
        = (y + 1) + g.chunksPerDim * z := by ring
      _ ≤ g.chunksPerDim + g.chunksPerDim * z := by omega
      _ = g.chunksPerDim * (z + 1) := by ring
      _ ≤ g.chunksPerDim * g.chunksPerDim := Nat.mul_le_mul_left _ hz
  calc x + g.chunksPerDim * (y + g.chunksPerDim * z)
      < g.chunksPerDim * (y + g.chunksPerDim * z + 1) := by
        have e2 : g.chunksPerDim * (y + g.chunksPerDim * z + 1)
            = g.chunksPerDim * (y + g.chunksPerDim * z) + g.chunksPerDim := by
          ring
        omega
    _ ≤ g.chunksPerDim * (g.chunksPerDim * g.chunksPerDim) :=
        Nat.mul_le_mul_left _ e1
    _ = g.chunksPerDim * g.chunksPerDim * g.chunksPerDim := by ring

/-- With at least as many cells as chunk slabs along the x-axis, every
chunk has a nonzero x-extent. -/
theorem chunkXs_pos (g : Grid3DParams) (hd : 1 ≤ g.chunksPerDim)
    (hX : g.chunksPerDim ≤ g.totalX) : ∀ cx, 0 < chunkXs g cx := by
  intro cx
  have h1 : 1 ≤ xPerChunk g := by
    unfold xPerChunk
    rw [Nat.le_div_iff_mul_le hd]
    omega
  unfold chunkXs
  rcases Nat.lt_or_ge cx (remainingX g) with h | h
  · rw [if_pos h]; omega
  · rw [if_neg (Nat.not_lt.mpr h)]; omega

theorem chunkYs_pos (g : Grid3DParams) (hd : 1 ≤ g.chunksPerDim)
    (hY : g.chunksPerDim ≤ g.totalY) : ∀ cy, 0 < chunkYs g cy := by
  intro cy
  have h1 : 1 ≤ yPerChunk g := by
    unfold yPerChunk
    rw [Nat.le_div_iff_mul_le hd]
    omega
  unfold chunkYs
  rcases Nat.lt_or_ge cy (remainingY g) with h | h
  · rw [if_pos h]; omega
  · rw [if_neg (Nat.not_lt.mpr h)]; omega

theorem chunkZs_pos (g : Grid3DParams) (hd : 1 ≤ g.chunksPerDim)
    (hZ : g.chunksPerDim ≤ g.totalZ) : ∀ cz, 0 < chunkZs g cz := by
  intro cz
  have h1 : 1 ≤ zPerChunk g := by
    unfold zPerChunk
    rw [Nat.le_div_iff_mul_le hd]
    omega
  unfold chunkZs
  rcases Nat.lt_or_ge cz (remainingZ g) with h | h
  · rw [if_pos h]; omega
  · rw [if_neg (Nat.not_lt.mpr h)]; omega

theorem vertexAt_localVertex (g : Grid3DParams) (cx cy cz a b c : Nat) :
    vertexAt g cx cy cz a b c - offsetForChunk g (encodeChunk g cx cy cz)
      = a + chunkXs g cx * (b + chunkYs g cy * c) := by
  unfold vertexAt
  have he : a + b * chunkXs g cx + c * (chunkXs g cx * chunkYs g cy)
      = a + chunkXs g cx * (b + chunkYs g cy * c) := by ring
  omega

/-- A well-formed coordinate position lies in its chunk's vertex id
interval. -/
theorem vertexAt_range (g : Grid3DParams) (cx cy cz a b c : Nat)
    (hcx : cx < g.chunksPerDim) (hcy : cy < g.chunksPerDim)
    (hcz : cz < g.chunksPerDim) (ha : a < chunkXs g cx)
    (hb : b < chunkYs g cy) (hc : c < chunkZs g cz) :
    offsetForChunk g (encodeChunk g cx cy cz) ≤ vertexAt g cx cy cz a b c ∧
    vertexAt g cx cy cz a b c
      < offsetForChunk g (encodeChunk g cx cy cz + 1) := by
  have hd : 1 ≤ g.chunksPerDim := by omega
  have hsucc := offsetForChunk_succ g hd (encodeChunk g cx cy cz)
  have hvol : chunkVolume g (encodeChunk g cx cy cz)
      = chunkXs g cx * chunkYs g cy * chunkZs g cz := by
    unfold chunkVolume
    rw [decodeX_encodeChunk g cx cy cz hcx, decodeY_encodeChunk g cx cy cz hcx hcy,
      decodeZ_encodeChunk g cx cy cz hcx hcy]
  have hbox := box_bound (chunkXs g cx) (chunkYs g cy) (chunkZs g cz) a b c
    ha hb hc
  unfold vertexAt
  omega

/-! ### Evaluating `LocateVertexInChunk` at explicit coordinates -/

theorem locate_right_eval (g : Grid3DParams) (cx cy cz lx ly lz : Nat)
    (hcx : cx < g.chunksPerDim) (hcy : cy < g.chunksPerDim) :
    locateVertexInChunk g (encodeChunk g cx cy cz) lx ly lz Direction.Right
      = vertexAt g cx cy cz 0 ly lz := by
  have hdx := decodeX_encodeChunk g cx cy cz hcx
  have hdy := decodeY_encodeChunk g cx cy cz hcx hcy
  simp only [locateVertexInChunk, vertexAt, hdx, hdy]

theorem locate_left_eval (g : Grid3DParams) (cx cy cz lx ly lz : Nat)
    (hcx : cx < g.chunksPerDim) (hcy : cy < g.chunksPerDim) :
    locateVertexInChunk g (encodeChunk g cx cy cz) lx ly lz Direction.Left
      = vertexAt g cx cy cz (chunkXs g cx - 1) ly lz := by
  have hdx := decodeX_encodeChunk g cx cy cz hcx
  have hdy := decodeY_encodeChunk g cx cy cz hcx hcy
  simp only [locateVertexInChunk, vertexAt, hdx, hdy]

theorem locate_down_eval (g : Grid3DParams) (cx cy cz lx ly lz : Nat)
    (hcx : cx < g.chunksPerDim) (hcy : cy < g.chunksPerDim) :
    locateVertexInChunk g (encodeChunk g cx cy cz) lx ly lz Direction.Down
      = vertexAt g cx cy cz lx 0 lz := by
  have hdx := decodeX_encodeChunk g cx cy cz hcx
  have hdy := decodeY_encodeChunk g cx cy cz hcx hcy
  simp only [locateVertexInChunk, vertexAt, hdx, hdy]

theorem locate_up_eval (g : Grid3DParams) (cx cy cz lx ly lz : Nat)
    (hcx : cx < g.chunksPerDim) (hcy : cy < g.chunksPerDim) :
    locateVertexInChunk g (encodeChunk g cx cy cz) lx ly lz Direction.Up
      = vertexAt g cx cy cz lx (chunkYs g cy - 1) lz := by
  have hdx := decodeX_encodeChunk g cx cy cz hcx
  have hdy := decodeY_encodeChunk g cx cy cz hcx hcy
  simp only [locateVertexInChunk, vertexAt, hdx, hdy]

theorem locate_back_eval (g : Grid3DParams) (cx cy cz lx ly lz : Nat)
    (hcx : cx < g.chunksPerDim) (hcy : cy < g.chunksPerDim) :
    locateVertexInChunk g (encodeChunk g cx cy cz) lx ly lz Direction.Back
      = vertexAt g cx cy cz lx ly 0 := by
  have hdx := decodeX_encodeChunk g cx cy cz hcx
  have hdy := decodeY_encodeChunk g cx cy cz hcx hcy
  simp only [locateVertexInChunk, vertexAt, hdx, hdy]

theorem locate_front_eval (g : Grid3DParams) (cx cy cz lx ly lz : Nat)
    (hcx : cx < g.chunksPerDim) (hcy : cy < g.chunksPerDim) :
    locateVertexInChunk g (encodeChunk g cx cy cz) lx ly lz Direction.Front
      = vertexAt g cx cy cz lx ly (chunkZs g cz - 1) := by
  have hdx := decodeX_encodeChunk g cx cy cz hcx
  have hdy := decodeY_encodeChunk g cx cy cz hcx hcy
  have hdz := decodeZ_encodeChunk g cx cy cz hcx hcy
  simp only [locateVertexInChunk, vertexAt, hdx, hdy, hdz]


/-! ### Evaluating the six neighbor queries at explicit coordinates -/

/-- Rightward query: step within the chunk, else into the next chunk
column, else wrap around when periodic. -/
theorem query_eval_right (g : Grid3DParams) (cx cy cz a b c : Nat)
    (hcx : cx < g.chunksPerDim) (hcy : cy < g.chunksPerDim)
    (hcz : cz < g.chunksPerDim) (ha : a < chunkXs g cx)
    (hb : b < chunkYs g cy) (hc : c < chunkZs g cz) :
    queryInDirection g (encodeChunk g cx cy cz) (vertexAt g cx cy cz a b c)
        Direction.Right
      = if a + 1 < chunkXs g cx then
          some (vertexAt g cx cy cz a b c, vertexAt g cx cy cz (a + 1) b c)
        else if cx + 1 < g.chunksPerDim then
          some (vertexAt g cx cy cz a b c, vertexAt g (cx + 1) cy cz 0 b c)
        else if g.periodic = true then
          some (vertexAt g cx cy cz a b c, vertexAt g 0 cy cz 0 b c)
        else none := by
  have hdx := decodeX_encodeChunk g cx cy cz hcx
  have hdy := decodeY_encodeChunk g cx cy cz hcx hcy
  have hdz := decodeZ_encodeChunk g cx cy cz hcx hcy
  have hlv := vertexAt_localVertex g cx cy cz a b c
  have hmod : (a + chunkXs g cx * (b + chunkYs g cy * c)) % chunkXs g cx
      = a := encode_mod_left _ _ ha
  have hdm : (a + chunkXs g cx * (b + chunkYs g cy * c)) / chunkXs g cx
      % chunkYs g cy = b := encode_div_mod _ _ _ ha hb
  have hdd : (a + chunkXs g cx * (b + chunkYs g cy * c))
      / (chunkXs g cx * chunkYs g cy) = c := encode_div_div _ _ _ ha hb
  simp only [queryInDirection, dirX, dirY, dirZ, hdx, hdy, hdz, hlv, hmod,
    hdm, hdd, add_zero]
  by_cases h1 : a + 1 < chunkXs g cx
  · have hloc : isLocalVertex ((a : Int) + 1) (b : Int) (c : Int)
        (chunkXs g cx) (chunkYs g cy) (chunkZs g cz) = true := by
      simp only [isLocalVertex, Bool.not_eq_eq_eq_not, Bool.not_true,
        Bool.or_eq_false_iff, decide_eq_false_iff_not, not_lt, not_le]
      omega
    rw [if_pos hloc, if_pos h1]
    have e1 : ((b : Int) * (chunkXs g cx : Int))
        = ((b * chunkXs g cx : Nat) : Int) := by
      push_cast
      ring
    have e2 : ((c : Int) * ((chunkXs g cx : Int) * (chunkYs g cy : Int)))
        = ((c * (chunkXs g cx * chunkYs g cy) : Nat) : Int) := by
      push_cast
      ring
    rw [e1, e2]
    simp only [Option.some.injEq, Prod.mk.injEq]
    refine ⟨trivial, ?_⟩
    unfold vertexAt
    omega
  · have hnloc : ¬ (isLocalVertex ((a : Int) + 1) (b : Int) (c : Int)
        (chunkXs g cx) (chunkYs g cy) (chunkZs g cz) = true) := by
      intro hcontra
      simp only [isLocalVertex, Bool.not_eq_eq_eq_not, Bool.not_true,
        Bool.or_eq_false_iff, decide_eq_false_iff_not, not_lt,
        not_le] at hcontra
      omega
    rw [if_neg hnloc, if_neg h1]
    by_cases hp : g.periodic = true
    · rw [if_pos hp, if_pos hp, if_pos hp, if_pos hp]
      have hwy : (((cy : Int) + (g.chunksPerDim : Int))
            % (g.chunksPerDim : Int)) = (cy : Int) := by
        have h0 : ((cy : Int) + (g.chunksPerDim : Int))
            = (cy : Int) + (g.chunksPerDim : Int) * 1 := by ring
        rw [h0, Int.add_mul_emod_self_left]
        exact Int.emod_eq_of_lt (by omega) (by omega)
      have hwz : (((cz : Int) + (g.chunksPerDim : Int))
            % (g.chunksPerDim : Int)) = (cz : Int) := by
        have h0 : ((cz : Int) + (g.chunksPerDim : Int))
            = (cz : Int) + (g.chunksPerDim : Int) * 1 := by ring
        rw [h0, Int.add_mul_emod_self_left]
        exact Int.emod_eq_of_lt (by omega) (by omega)
      rw [hwy, hwz]
      by_cases h2 : cx + 1 < g.chunksPerDim
      · have hwx : (((cx : Int) + 1 + (g.chunksPerDim : Int))
              % (g.chunksPerDim : Int)) = ((cx + 1 : Nat) : Int) := by
          have h0 : ((cx : Int) + 1 + (g.chunksPerDim : Int))
              = ((cx + 1 : Nat) : Int) + (g.chunksPerDim : Int) * 1 := by
            push_cast
            ring
          rw [h0, Int.add_mul_emod_self_left]
          exact Int.emod_eq_of_lt (by omega) (by omega)
        rw [hwx, if_pos h2]
        have hvalid : isValidChunk g ((cx + 1 : Nat) : Int) (cy : Int)
            (cz : Int) = true := by
          simp only [isValidChunk, Bool.not_eq_eq_eq_not, Bool.not_true,
            Bool.or_eq_false_iff, decide_eq_false_iff_not, not_lt, not_le]
          omega
        rw [if_pos hvalid]
        simp only [Int.toNat_natCast]
        rw [locate_right_eval g (cx + 1) cy cz a b c h2 hcy]
      · have hwx : (((cx : Int) + 1 + (g.chunksPerDim : Int))
              % (g.chunksPerDim : Int)) = (0 : Int) := by
          have h0 : ((cx : Int) + 1 + (g.chunksPerDim : Int))
              = 0 + (g.chunksPerDim : Int) * 2 := by omega
          rw [h0, Int.add_mul_emod_self_left]
          exact Int.zero_emod _
        rw [hwx, if_neg h2]
        have hvalid : isValidChunk g (0 : Int) (cy : Int) (cz : Int)
            = true := by
          simp only [isValidChunk, Bool.not_eq_eq_eq_not, Bool.not_true,
            Bool.or_eq_false_iff, decide_eq_false_iff_not, not_lt, not_le]
          omega
        rw [if_pos hvalid]
        simp only [Int.toNat_natCast, Int.toNat_zero]
        rw [locate_right_eval g 0 cy cz a b c (by omega) hcy]
    · rw [if_neg hp, if_neg hp, if_neg hp, if_neg hp]
      by_cases h2 : cx + 1 < g.chunksPerDim
      · rw [if_pos h2]
        have e3 : ((cx : Int) + 1) = ((cx + 1 : Nat) : Int) := by
          push_cast
          ring
        rw [e3]
        have hvalid : isValidChunk g ((cx + 1 : Nat) : Int) (cy : Int)
            (cz : Int) = true := by
          simp only [isValidChunk, Bool.not_eq_eq_eq_not, Bool.not_true,
            Bool.or_eq_false_iff, decide_eq_false_iff_not, not_lt, not_le]
          omega
        rw [if_pos hvalid]
        simp only [Int.toNat_natCast]
        rw [locate_right_eval g (cx + 1) cy cz a b c h2 hcy]
      · rw [if_neg h2]
        have hnvalid : ¬ (isValidChunk g ((cx : Int) + 1) (cy : Int)
            (cz : Int) = true) := by
          intro hcontra
          simp only [isValidChunk, Bool.not_eq_eq_eq_not, Bool.not_true,
            Bool.or_eq_false_iff, decide_eq_false_iff_not, not_lt,
            not_le] at hcontra
          omega
        rw [if_neg hnvalid]


/-- Leftward query: step within the chunk, else into the previous chunk
column (entering at its right face), else wrap around when periodic. -/
theorem query_eval_left (g : Grid3DParams) (cx cy cz a b c : Nat)
    (hcx : cx < g.chunksPerDim) (hcy : cy < g.chunksPerDim)
    (hcz : cz < g.chunksPerDim) (ha : a < chunkXs g cx)
    (hb : b < chunkYs g cy) (hc : c < chunkZs g cz) :
    queryInDirection g (encodeChunk g cx cy cz) (vertexAt g cx cy cz a b c)
        Direction.Left
      = if 1 ≤ a then
          some (vertexAt g cx cy cz a b c, vertexAt g cx cy cz (a - 1) b c)
        else if 1 ≤ cx then
          some (vertexAt g cx cy cz a b c,
            vertexAt g (cx - 1) cy cz (chunkXs g (cx - 1) - 1) b c)
        else if g.periodic = true then
          some (vertexAt g cx cy cz a b c,
            vertexAt g (g.chunksPerDim - 1) cy cz
              (chunkXs g (g.chunksPerDim - 1) - 1) b c)
        else none := by
  have hdx := decodeX_encodeChunk g cx cy cz hcx
  have hdy := decodeY_encodeChunk g cx cy cz hcx hcy
  have hdz := decodeZ_encodeChunk g cx cy cz hcx hcy
  have hlv := vertexAt_localVertex g cx cy cz a b c
  have hmod : (a + chunkXs g cx * (b + chunkYs g cy * c)) % chunkXs g cx
      = a := encode_mod_left _ _ ha
  have hdm : (a + chunkXs g cx * (b + chunkYs g cy * c)) / chunkXs g cx
      % chunkYs g cy = b := encode_div_mod _ _ _ ha hb
  have hdd : (a + chunkXs g cx * (b + chunkYs g cy * c))
      / (chunkXs g cx * chunkYs g cy) = c := encode_div_div _ _ _ ha hb
  simp only [queryInDirection, dirX, dirY, dirZ, hdx, hdy, hdz, hlv, hmod,
    hdm, hdd, add_zero]
  by_cases h1 : 1 ≤ a
  · have hloc : isLocalVertex ((a : Int) + -1) (b : Int) (c : Int)
        (chunkXs g cx) (chunkYs g cy) (chunkZs g cz) = true := by
      simp only [isLocalVertex, Bool.not_eq_eq_eq_not, Bool.not_true,
        Bool.or_eq_false_iff, decide_eq_false_iff_not, not_lt, not_le]
      omega
    rw [if_pos hloc, if_pos h1]
    have e1 : ((b : Int) * (chunkXs g cx : Int))
        = ((b * chunkXs g cx : Nat) : Int) := by
      push_cast
      ring
    have e2 : ((c : Int) * ((chunkXs g cx : Int) * (chunkYs g cy : Int)))
        = ((c * (chunkXs g cx * chunkYs g cy) : Nat) : Int) := by
      push_cast
      ring
    rw [e1, e2]
    simp only [Option.some.injEq, Prod.mk.injEq]
    refine ⟨trivial, ?_⟩
    unfold vertexAt
    omega
  · have hnloc : ¬ (isLocalVertex ((a : Int) + -1) (b : Int) (c : Int)
        (chunkXs g cx) (chunkYs g cy) (chunkZs g cz) = true) := by
      intro hcontra
      simp only [isLocalVertex, Bool.not_eq_eq_eq_not, Bool.not_true,
        Bool.or_eq_false_iff, decide_eq_false_iff_not, not_lt,
        not_le] at hcontra
      omega
    rw [if_neg hnloc, if_neg h1]
    by_cases hp : g.periodic = true
    · rw [if_pos hp, if_pos hp, if_pos hp, if_pos hp]
      have hwy : (((cy : Int) + (g.chunksPerDim : Int))
            % (g.chunksPerDim : Int)) = (cy : Int) := by
        have h0 : ((cy : Int) + (g.chunksPerDim : Int))
            = (cy : Int) + (g.chunksPerDim : Int) * 1 := by ring
        rw [h0, Int.add_mul_emod_self_left]
        exact Int.emod_eq_of_lt (by omega) (by omega)
      have hwz : (((cz : Int) + (g.chunksPerDim : Int))
            % (g.chunksPerDim : Int)) = (cz : Int) := by
        have h0 : ((cz : Int) + (g.chunksPerDim : Int))
            = (cz : Int) + (g.chunksPerDim : Int) * 1 := by ring
        rw [h0, Int.add_mul_emod_self_left]
        exact Int.emod_eq_of_lt (by omega) (by omega)
      rw [hwy, hwz]
      by_cases h2 : 1 ≤ cx
      · have hwx : (((cx : Int) + -1 + (g.chunksPerDim : Int))
              % (g.chunksPerDim : Int)) = ((cx - 1 : Nat) : Int) := by
          have h0 : ((cx : Int) + -1 + (g.chunksPerDim : Int))
              = ((cx - 1 : Nat) : Int) + (g.chunksPerDim : Int) * 1 := by
            omega
          rw [h0, Int.add_mul_emod_self_left]
          exact Int.emod_eq_of_lt (by omega) (by omega)
        rw [hwx, if_pos h2]
        have hvalid : isValidChunk g ((cx - 1 : Nat) : Int) (cy : Int)
            (cz : Int) = true := by
          simp only [isValidChunk, Bool.not_eq_eq_eq_not, Bool.not_true,
            Bool.or_eq_false_iff, decide_eq_false_iff_not, not_lt, not_le]
          omega
        rw [if_pos hvalid]
        simp only [Int.toNat_natCast]
        rw [locate_left_eval g (cx - 1) cy cz a b c (by omega) hcy]
      · have hwx : (((cx : Int) + -1 + (g.chunksPerDim : Int))
              % (g.chunksPerDim : Int))
              = ((g.chunksPerDim - 1 : Nat) : Int) := by
          have h0 : ((cx : Int) + -1 + (g.chunksPerDim : Int))
              = ((g.chunksPerDim - 1 : Nat) : Int)
                + (g.chunksPerDim : Int) * 0 := by
            omega
          rw [h0, Int.add_mul_emod_self_left]
          exact Int.emod_eq_of_lt (by omega) (by omega)
        rw [hwx, if_neg h2]
        have hvalid : isValidChunk g ((g.chunksPerDim - 1 : Nat) : Int)
            (cy : Int) (cz : Int) = true := by
          simp only [isValidChunk, Bool.not_eq_eq_eq_not, Bool.not_true,
            Bool.or_eq_false_iff, decide_eq_false_iff_not, not_lt, not_le]
          omega
        rw [if_pos hvalid]
        simp only [Int.toNat_natCast]
        rw [locate_left_eval g (g.chunksPerDim - 1) cy cz a b c (by omega) hcy]
    · rw [if_neg hp, if_neg hp, if_neg hp, if_neg hp]
      by_cases h2 : 1 ≤ cx
      · rw [if_pos h2]
        have e3 : ((cx : Int) + -1) = ((cx - 1 : Nat) : Int) := by omega
        rw [e3]
        have hvalid : isValidChunk g ((cx - 1 : Nat) : Int) (cy : Int)
            (cz : Int) = true := by
          simp only [isValidChunk, Bool.not_eq_eq_eq_not, Bool.not_true,
            Bool.or_eq_false_iff, decide_eq_false_iff_not, not_lt, not_le]
          omega
        rw [if_pos hvalid]
        simp only [Int.toNat_natCast]
        rw [locate_left_eval g (cx - 1) cy cz a b c (by omega) hcy]
      · rw [if_neg h2]
        have hnvalid : ¬ (isValidChunk g ((cx : Int) + -1) (cy : Int)
            (cz : Int) = true) := by
          intro hcontra
          simp only [isValidChunk, Bool.not_eq_eq_eq_not, Bool.not_true,
            Bool.or_eq_false_iff, decide_eq_false_iff_not, not_lt,
            not_le] at hcontra
          omega
        rw [if_neg hnvalid]

/-- Downward query (`+y`): step within the chunk, else into the next
chunk row, else wrap around when periodic. -/
theorem query_eval_down (g : Grid3DParams) (cx cy cz a b c : Nat)
    (hcx : cx < g.chunksPerDim) (hcy : cy < g.chunksPerDim)
    (hcz : cz < g.chunksPerDim) (ha : a < chunkXs g cx)
    (hb : b < chunkYs g cy) (hc : c < chunkZs g cz) :
    queryInDirection g (encodeChunk g cx cy cz) (vertexAt g cx cy cz a b c)
        Direction.Down
      = if b + 1 < chunkYs g cy then
          some (vertexAt g cx cy cz a b c, vertexAt g cx cy cz a (b + 1) c)
        else if cy + 1 < g.chunksPerDim then
          some (vertexAt g cx cy cz a b c, vertexAt g cx (cy + 1) cz a 0 c)
        else if g.periodic = true then
          some (vertexAt g cx cy cz a b c, vertexAt g cx 0 cz a 0 c)
        else none := by
  have hdx := decodeX_encodeChunk g cx cy cz hcx
  have hdy := decodeY_encodeChunk g cx cy cz hcx hcy
  have hdz := decodeZ_encodeChunk g cx cy cz hcx hcy
  have hlv := vertexAt_localVertex g cx cy cz a b c
  have hmod : (a + chunkXs g cx * (b + chunkYs g cy * c)) % chunkXs g cx
      = a := encode_mod_left _ _ ha
  have hdm : (a + chunkXs g cx * (b + chunkYs g cy * c)) / chunkXs g cx
      % chunkYs g cy = b := encode_div_mod _ _ _ ha hb
  have hdd : (a + chunkXs g cx * (b + chunkYs g cy * c))
      / (chunkXs g cx * chunkYs g cy) = c := encode_div_div _ _ _ ha hb
  simp only [queryInDirection, dirX, dirY, dirZ, hdx, hdy, hdz, hlv, hmod,
    hdm, hdd, add_zero]
  by_cases h1 : b + 1 < chunkYs g cy
  · have hloc : isLocalVertex (a : Int) ((b : Int) + 1) (c : Int)
        (chunkXs g cx) (chunkYs g cy) (chunkZs g cz) = true := by
      simp only [isLocalVertex, Bool.not_eq_eq_eq_not, Bool.not_true,
        Bool.or_eq_false_iff, decide_eq_false_iff_not, not_lt, not_le]
      omega
    rw [if_pos hloc, if_pos h1]
    have e1 : (((b : Int) + 1) * (chunkXs g cx : Int))
        = (((b + 1) * chunkXs g cx : Nat) : Int) := by
      push_cast
      ring
    have e2 : ((c : Int) * ((chunkXs g cx : Int) * (chunkYs g cy : Int)))
        = ((c * (chunkXs g cx * chunkYs g cy) : Nat) : Int) := by
      push_cast
      ring
    rw [e1, e2]
    simp only [Option.some.injEq, Prod.mk.injEq]
    refine ⟨trivial, ?_⟩
    unfold vertexAt
    omega
  · have hnloc : ¬ (isLocalVertex (a : Int) ((b : Int) + 1) (c : Int)
        (chunkXs g cx) (chunkYs g cy) (chunkZs g cz) = true) := by
      intro hcontra
      simp only [isLocalVertex, Bool.not_eq_eq_eq_not, Bool.not_true,
        Bool.or_eq_false_iff, decide_eq_false_iff_not, not_lt,
        not_le] at hcontra
      omega
    rw [if_neg hnloc, if_neg h1]
    by_cases hp : g.periodic = true
    · rw [if_pos hp, if_pos hp, if_pos hp, if_pos hp]
      have hwx : (((cx : Int) + (g.chunksPerDim : Int))
            % (g.chunksPerDim : Int)) = (cx : Int) := by
        have h0 : ((cx : Int) + (g.chunksPerDim : Int))
            = (cx : Int) + (g.chunksPerDim : Int) * 1 := by ring
        rw [h0, Int.add_mul_emod_self_left]
        exact Int.emod_eq_of_lt (by omega) (by omega)
      have hwz : (((cz : Int) + (g.chunksPerDim : Int))
            % (g.chunksPerDim : Int)) = (cz : Int) := by
        have h0 : ((cz : Int) + (g.chunksPerDim : Int))
            = (cz : Int) + (g.chunksPerDim : Int) * 1 := by ring
        rw [h0, Int.add_mul_emod_self_left]
        exact Int.emod_eq_of_lt (by omega) (by omega)
      rw [hwx, hwz]
      by_cases h2 : cy + 1 < g.chunksPerDim
      · have hwy : (((cy : Int) + 1 + (g.chunksPerDim : Int))
              % (g.chunksPerDim : Int)) = ((cy + 1 : Nat) : Int) := by
          have h0 : ((cy : Int) + 1 + (g.chunksPerDim : Int))
              = ((cy + 1 : Nat) : Int) + (g.chunksPerDim : Int) * 1 := by
            push_cast
            ring
          rw [h0, Int.add_mul_emod_self_left]
          exact Int.emod_eq_of_lt (by omega) (by omega)
        rw [hwy, if_pos h2]
        have hvalid : isValidChunk g (cx : Int) ((cy + 1 : Nat) : Int)
            (cz : Int) = true := by
          simp only [isValidChunk, Bool.not_eq_eq_eq_not, Bool.not_true,
            Bool.or_eq_false_iff, decide_eq_false_iff_not, not_lt, not_le]
          omega
        rw [if_pos hvalid]
        simp only [Int.toNat_natCast]
        rw [locate_down_eval g cx (cy + 1) cz a b c hcx h2]
      · have hwy : (((cy : Int) + 1 + (g.chunksPerDim : Int))
              % (g.chunksPerDim : Int)) = (0 : Int) := by
          have h0 : ((cy : Int) + 1 + (g.chunksPerDim : Int))
              = 0 + (g.chunksPerDim : Int) * 2 := by omega
          rw [h0, Int.add_mul_emod_self_left]
          exact Int.zero_emod _
        rw [hwy, if_neg h2]
        have hvalid : isValidChunk g (cx : Int) (0 : Int) (cz : Int)
            = true := by
          simp only [isValidChunk, Bool.not_eq_eq_eq_not, Bool.not_true,
            Bool.or_eq_false_iff, decide_eq_false_iff_not, not_lt, not_le]
          omega
        rw [if_pos hvalid]
        simp only [Int.toNat_natCast, Int.toNat_zero]
        rw [locate_down_eval g cx 0 cz a b c hcx (by omega)]
    · rw [if_neg hp, if_neg hp, if_neg hp, if_neg hp]
      by_cases h2 : cy + 1 < g.chunksPerDim
      · rw [if_pos h2]
        have e3 : ((cy : Int) + 1) = ((cy + 1 : Nat) : Int) := by
          push_cast
          ring
        rw [e3]
        have hvalid : isValidChunk g (cx : Int) ((cy + 1 : Nat) : Int)
            (cz : Int) = true := by
          simp only [isValidChunk, Bool.not_eq_eq_eq_not, Bool.not_true,
            Bool.or_eq_false_iff, decide_eq_false_iff_not, not_lt, not_le]
          omega
        rw [if_pos hvalid]
        simp only [Int.toNat_natCast]
        rw [locate_down_eval g cx (cy + 1) cz a b c hcx h2]
      · rw [if_neg h2]
        have hnvalid : ¬ (isValidChunk g (cx : Int) ((cy : Int) + 1)
            (cz : Int) = true) := by
          intro hcontra
          simp only [isValidChunk, Bool.not_eq_eq_eq_not, Bool.not_true,
            Bool.or_eq_false_iff, decide_eq_false_iff_not, not_lt,
            not_le] at hcontra
          omega
        rw [if_neg hnvalid]

/-- Upward query (`-y`): step within the chunk, else into the previous
chunk row (entering at its bottom face), else wrap around when
periodic. -/
theorem query_eval_up (g : Grid3DParams) (cx cy cz a b c : Nat)
    (hcx : cx < g.chunksPerDim) (hcy : cy < g.chunksPerDim)
    (hcz : cz < g.chunksPerDim) (ha : a < chunkXs g cx)
    (hb : b < chunkYs g cy) (hc : c < chunkZs g cz) :
    queryInDirection g (encodeChunk g cx cy cz) (vertexAt g cx cy cz a b c)
        Direction.Up
      = if 1 ≤ b then
          some (vertexAt g cx cy cz a b c, vertexAt g cx cy cz a (b - 1) c)
        else if 1 ≤ cy then
          some (vertexAt g cx cy cz a b c,
            vertexAt g cx (cy - 1) cz a (chunkYs g (cy - 1) - 1) c)
        else if g.periodic = true then
          some (vertexAt g cx cy cz a b c,
            vertexAt g cx (g.chunksPerDim - 1) cz a
              (chunkYs g (g.chunksPerDim - 1) - 1) c)
        else none := by
  have hdx := decodeX_encodeChunk g cx cy cz hcx
  have hdy := decodeY_encodeChunk g cx cy cz hcx hcy
  have hdz := decodeZ_encodeChunk g cx cy cz hcx hcy
  have hlv := vertexAt_localVertex g cx cy cz a b c
  have hmod : (a + chunkXs g cx * (b + chunkYs g cy * c)) % chunkXs g cx
      = a := encode_mod_left _ _ ha
  have hdm : (a + chunkXs g cx * (b + chunkYs g cy * c)) / chunkXs g cx
      % chunkYs g cy = b := encode_div_mod _ _ _ ha hb
  have hdd : (a + chunkXs g cx * (b + chunkYs g cy * c))
      / (chunkXs g cx * chunkYs g cy) = c := encode_div_div _ _ _ ha hb
  simp only [queryInDirection, dirX, dirY, dirZ, hdx, hdy, hdz, hlv, hmod,
    hdm, hdd, add_zero]
  by_cases h1 : 1 ≤ b
  · have hloc : isLocalVertex (a : Int) ((b : Int) + -1) (c : Int)
        (chunkXs g cx) (chunkYs g cy) (chunkZs g cz) = true := by
      simp only [isLocalVertex, Bool.not_eq_eq_eq_not, Bool.not_true,
        Bool.or_eq_false_iff, decide_eq_false_iff_not, not_lt, not_le]
      omega
    rw [if_pos hloc, if_pos h1]
    have e1 : (((b : Int) + -1) * (chunkXs g cx : Int))
        = (((b - 1) * chunkXs g cx : Nat) : Int) := by
      rw [Nat.cast_mul, Nat.cast_sub h1]
      push_cast
      ring
    have e2 : ((c : Int) * ((chunkXs g cx : Int) * (chunkYs g cy : Int)))
        = ((c * (chunkXs g cx * chunkYs g cy) : Nat) : Int) := by
      push_cast
      ring
    rw [e1, e2]
    simp only [Option.some.injEq, Prod.mk.injEq]
    refine ⟨trivial, ?_⟩
    unfold vertexAt
    omega
  · have hnloc : ¬ (isLocalVertex (a : Int) ((b : Int) + -1) (c : Int)
        (chunkXs g cx) (chunkYs g cy) (chunkZs g cz) = true) := by
      intro hcontra
      simp only [isLocalVertex, Bool.not_eq_eq_eq_not, Bool.not_true,
        Bool.or_eq_false_iff, decide_eq_false_iff_not, not_lt,
        not_le] at hcontra
      omega
    rw [if_neg hnloc, if_neg h1]
    by_cases hp : g.periodic = true
    · rw [if_pos hp, if_pos hp, if_pos hp, if_pos hp]
      have hwx : (((cx : Int) + (g.chunksPerDim : Int))
            % (g.chunksPerDim : Int)) = (cx : Int) := by
        have h0 : ((cx : Int) + (g.chunksPerDim : Int))
            = (cx : Int) + (g.chunksPerDim : Int) * 1 := by ring
        rw [h0, Int.add_mul_emod_self_left]
        exact Int.emod_eq_of_lt (by omega) (by omega)
      have hwz : (((cz : Int) + (g.chunksPerDim : Int))
            % (g.chunksPerDim : Int)) = (cz : Int) := by
        have h0 : ((cz : Int) + (g.chunksPerDim : Int))
            = (cz : Int) + (g.chunksPerDim : Int) * 1 := by ring
        rw [h0, Int.add_mul_emod_self_left]
        exact Int.emod_eq_of_lt (by omega) (by omega)
      rw [hwx, hwz]
      by_cases h2 : 1 ≤ cy
      · have hwy : (((cy : Int) + -1 + (g.chunksPerDim : Int))
              % (g.chunksPerDim : Int)) = ((cy - 1 : Nat) : Int) := by
          have h0 : ((cy : Int) + -1 + (g.chunksPerDim : Int))
              = ((cy - 1 : Nat) : Int) + (g.chunksPerDim : Int) * 1 := by
            omega
          rw [h0, Int.add_mul_emod_self_left]
          exact Int.emod_eq_of_lt (by omega) (by omega)
        rw [hwy, if_pos h2]
        have hvalid : isValidChunk g (cx : Int) ((cy - 1 : Nat) : Int)
            (cz : Int) = true := by
          simp only [isValidChunk, Bool.not_eq_eq_eq_not, Bool.not_true,
            Bool.or_eq_false_iff, decide_eq_false_iff_not, not_lt, not_le]
          omega
        rw [if_pos hvalid]
        simp only [Int.toNat_natCast]
        rw [locate_up_eval g cx (cy - 1) cz a b c hcx (by omega)]
      · have hwy : (((cy : Int) + -1 + (g.chunksPerDim : Int))
              % (g.chunksPerDim : Int))
              = ((g.chunksPerDim - 1 : Nat) : Int) := by
          have h0 : ((cy : Int) + -1 + (g.chunksPerDim : Int))
              = ((g.chunksPerDim - 1 : Nat) : Int)
                + (g.chunksPerDim : Int) * 0 := by
            omega
          rw [h0, Int.add_mul_emod_self_left]
          exact Int.emod_eq_of_lt (by omega) (by omega)
        rw [hwy, if_neg h2]
        have hvalid : isValidChunk g (cx : Int)
            ((g.chunksPerDim - 1 : Nat) : Int) (cz : Int) = true := by
          simp only [isValidChunk, Bool.not_eq_eq_eq_not, Bool.not_true,
            Bool.or_eq_false_iff, decide_eq_false_iff_not, not_lt, not_le]
          omega
        rw [if_pos hvalid]
        simp only [Int.toNat_natCast]
        rw [locate_up_eval g cx (g.chunksPerDim - 1) cz a b c hcx (by omega)]
    · rw [if_neg hp, if_neg hp, if_neg hp, if_neg hp]
      by_cases h2 : 1 ≤ cy
      · rw [if_pos h2]
        have e3 : ((cy : Int) + -1) = ((cy - 1 : Nat) : Int) := by omega
        rw [e3]
        have hvalid : isValidChunk g (cx : Int) ((cy - 1 : Nat) : Int)
            (cz : Int) = true := by
          simp only [isValidChunk, Bool.not_eq_eq_eq_not, Bool.not_true,
            Bool.or_eq_false_iff, decide_eq_false_iff_not, not_lt, not_le]
          omega
        rw [if_pos hvalid]
        simp only [Int.toNat_natCast]
        rw [locate_up_eval g cx (cy - 1) cz a b c hcx (by omega)]
      · rw [if_neg h2]
        have hnvalid : ¬ (isValidChunk g (cx : Int) ((cy : Int) + -1)
            (cz : Int) = true) := by
          intro hcontra
          simp only [isValidChunk, Bool.not_eq_eq_eq_not, Bool.not_true,
            Bool.or_eq_false_iff, decide_eq_false_iff_not, not_lt,
            not_le] at hcontra
          omega
        rw [if_neg hnvalid]

/-- Backward query (`+z`): step within the chunk, else into the next
chunk layer, else wrap around when periodic. -/
theorem query_eval_back (g : Grid3DParams) (cx cy cz a b c : Nat)
    (hcx : cx < g.chunksPerDim) (hcy : cy < g.chunksPerDim)
    (hcz : cz < g.chunksPerDim) (ha : a < chunkXs g cx)
    (hb : b < chunkYs g cy) (hc : c < chunkZs g cz) :
    queryInDirection g (encodeChunk g cx cy cz) (vertexAt g cx cy cz a b c)
        Direction.Back
      = if c + 1 < chunkZs g cz then
          some (vertexAt g cx cy cz a b c, vertexAt g cx cy cz a b (c + 1))
        else if cz + 1 < g.chunksPerDim then
          some (vertexAt g cx cy cz a b c, vertexAt g cx cy (cz + 1) a b 0)
        else if g.periodic = true then
          some (vertexAt g cx cy cz a b c, vertexAt g cx cy 0 a b 0)
        else none := by
  have hdx := decodeX_encodeChunk g cx cy cz hcx
  have hdy := decodeY_encodeChunk g cx cy cz hcx hcy
  have hdz := decodeZ_encodeChunk g cx cy cz hcx hcy
  have hlv := vertexAt_localVertex g cx cy cz a b c
  have hmod : (a + chunkXs g cx * (b + chunkYs g cy * c)) % chunkXs g cx
      = a := encode_mod_left _ _ ha
  have hdm : (a + chunkXs g cx * (b + chunkYs g cy * c)) / chunkXs g cx
      % chunkYs g cy = b := encode_div_mod _ _ _ ha hb
  have hdd : (a + chunkXs g cx * (b + chunkYs g cy * c))
      / (chunkXs g cx * chunkYs g cy) = c := encode_div_div _ _ _ ha hb
  simp only [queryInDirection, dirX, dirY, dirZ, hdx, hdy, hdz, hlv, hmod,
    hdm, hdd, add_zero]
  by_cases h1 : c + 1 < chunkZs g cz
  · have hloc : isLocalVertex (a : Int) (b : Int) ((c : Int) + 1)
        (chunkXs g cx) (chunkYs g cy) (chunkZs g cz) = true := by
      simp only [isLocalVertex, Bool.not_eq_eq_eq_not, Bool.not_true,
        Bool.or_eq_false_iff, decide_eq_false_iff_not, not_lt, not_le]
      omega
    rw [if_pos hloc, if_pos h1]
    have e1 : ((b : Int) * (chunkXs g cx : Int))
        = ((b * chunkXs g cx : Nat) : Int) := by
      push_cast
      ring
    have e2 : (((c : Int) + 1) * ((chunkXs g cx : Int) * (chunkYs g cy : Int)))
        = (((c + 1) * (chunkXs g cx * chunkYs g cy) : Nat) : Int) := by
      push_cast
      ring
    rw [e1, e2]
    simp only [Option.some.injEq, Prod.mk.injEq]
    refine ⟨trivial, ?_⟩
    unfold vertexAt
    omega
  · have hnloc : ¬ (isLocalVertex (a : Int) (b : Int) ((c : Int) + 1)
        (chunkXs g cx) (chunkYs g cy) (chunkZs g cz) = true) := by
      intro hcontra
      simp only [isLocalVertex, Bool.not_eq_eq_eq_not, Bool.not_true,
        Bool.or_eq_false_iff, decide_eq_false_iff_not, not_lt,
        not_le] at hcontra
      omega
    rw [if_neg hnloc, if_neg h1]
    by_cases hp : g.periodic = true
    · rw [if_pos hp, if_pos hp, if_pos hp, if_pos hp]
      have hwx : (((cx : Int) + (g.chunksPerDim : Int))
            % (g.chunksPerDim : Int)) = (cx : Int) := by
        have h0 : ((cx : Int) + (g.chunksPerDim : Int))
            = (cx : Int) + (g.chunksPerDim : Int) * 1 := by ring
        rw [h0, Int.add_mul_emod_self_left]
        exact Int.emod_eq_of_lt (by omega) (by omega)
      have hwy : (((cy : Int) + (g.chunksPerDim : Int))
            % (g.chunksPerDim : Int)) = (cy : Int) := by
        have h0 : ((cy : Int) + (g.chunksPerDim : Int))
            = (cy : Int) + (g.chunksPerDim : Int) * 1 := by ring
        rw [h0, Int.add_mul_emod_self_left]
        exact Int.emod_eq_of_lt (by omega) (by omega)
      rw [hwx, hwy]
      by_cases h2 : cz + 1 < g.chunksPerDim
      · have hwz : (((cz : Int) + 1 + (g.chunksPerDim : Int))
              % (g.chunksPerDim : Int)) = ((cz + 1 : Nat) : Int) := by
          have h0 : ((cz : Int) + 1 + (g.chunksPerDim : Int))
              = ((cz + 1 : Nat) : Int) + (g.chunksPerDim : Int) * 1 := by
            push_cast
            ring
          rw [h0, Int.add_mul_emod_self_left]
          exact Int.emod_eq_of_lt (by omega) (by omega)
        rw [hwz, if_pos h2]
        have hvalid : isValidChunk g (cx : Int) (cy : Int)
            ((cz + 1 : Nat) : Int) = true := by
          simp only [isValidChunk, Bool.not_eq_eq_eq_not, Bool.not_true,
            Bool.or_eq_false_iff, decide_eq_false_iff_not, not_lt, not_le]
          omega
        rw [if_pos hvalid]
        simp only [Int.toNat_natCast]
        rw [locate_back_eval g cx cy (cz + 1) a b c hcx hcy]
      · have hwz : (((cz : Int) + 1 + (g.chunksPerDim : Int))
              % (g.chunksPerDim : Int)) = (0 : Int) := by
          have h0 : ((cz : Int) + 1 + (g.chunksPerDim : Int))
              = 0 + (g.chunksPerDim : Int) * 2 := by omega
          rw [h0, Int.add_mul_emod_self_left]
          exact Int.zero_emod _
        rw [hwz, if_neg h2]
        have hvalid : isValidChunk g (cx : Int) (cy : Int) (0 : Int)
            = true := by
          simp only [isValidChunk, Bool.not_eq_eq_eq_not, Bool.not_true,
            Bool.or_eq_false_iff, decide_eq_false_iff_not, not_lt, not_le]
          omega
        rw [if_pos hvalid]
        simp only [Int.toNat_natCast, Int.toNat_zero]
        rw [locate_back_eval g cx cy 0 a b c hcx hcy]
    · rw [if_neg hp, if_neg hp, if_neg hp, if_neg hp]
      by_cases h2 : cz + 1 < g.chunksPerDim
      · rw [if_pos h2]
        have e3 : ((cz : Int) + 1) = ((cz + 1 : Nat) : Int) := by
          push_cast
          ring
        rw [e3]
        have hvalid : isValidChunk g (cx : Int) (cy : Int)
            ((cz + 1 : Nat) : Int) = true := by
          simp only [isValidChunk, Bool.not_eq_eq_eq_not, Bool.not_true,
            Bool.or_eq_false_iff, decide_eq_false_iff_not, not_lt, not_le]
          omega
        rw [if_pos hvalid]
        simp only [Int.toNat_natCast]
        rw [locate_back_eval g cx cy (cz + 1) a b c hcx hcy]
      · rw [if_neg h2]
        have hnvalid : ¬ (isValidChunk g (cx : Int) (cy : Int)
            ((cz : Int) + 1) = true) := by
          intro hcontra
          simp only [isValidChunk, Bool.not_eq_eq_eq_not, Bool.not_true,
            Bool.or_eq_false_iff, decide_eq_false_iff_not, not_lt,
            not_le] at hcontra
          omega
        rw [if_neg hnvalid]

/-- Frontward query (`-z`): step within the chunk, else into the
previous chunk layer (entering at its back face), else wrap around when
periodic. -/
theorem query_eval_front (g : Grid3DParams) (cx cy cz a b c : Nat)
    (hcx : cx < g.chunksPerDim) (hcy : cy < g.chunksPerDim)
    (hcz : cz < g.chunksPerDim) (ha : a < chunkXs g cx)
    (hb : b < chunkYs g cy) (hc : c < chunkZs g cz) :
    queryInDirection g (encodeChunk g cx cy cz) (vertexAt g cx cy cz a b c)
        Direction.Front
      = if 1 ≤ c then
          some (vertexAt g cx cy cz a b c, vertexAt g cx cy cz a b (c - 1))
        else if 1 ≤ cz then
          some (vertexAt g cx cy cz a b c,
            vertexAt g cx cy (cz - 1) a b (chunkZs g (cz - 1) - 1))
        else if g.periodic = true then
          some (vertexAt g cx cy cz a b c,
            vertexAt g cx cy (g.chunksPerDim - 1) a b
              (chunkZs g (g.chunksPerDim - 1) - 1))
        else none := by
  have hdx := decodeX_encodeChunk g cx cy cz hcx
  have hdy := decodeY_encodeChunk g cx cy cz hcx hcy
  have hdz := decodeZ_encodeChunk g cx cy cz hcx hcy
  have hlv := vertexAt_localVertex g cx cy cz a b c
  have hmod : (a + chunkXs g cx * (b + chunkYs g cy * c)) % chunkXs g cx
      = a := encode_mod_left _ _ ha
  have hdm : (a + chunkXs g cx * (b + chunkYs g cy * c)) / chunkXs g cx
      % chunkYs g cy = b := encode_div_mod _ _ _ ha hb
  have hdd : (a + chunkXs g cx * (b + chunkYs g cy * c))
      / (chunkXs g cx * chunkYs g cy) = c := encode_div_div _ _ _ ha hb
  simp only [queryInDirection, dirX, dirY, dirZ, hdx, hdy, hdz, hlv, hmod,
    hdm, hdd, add_zero]
  by_cases h1 : 1 ≤ c
  · have hloc : isLocalVertex (a : Int) (b : Int) ((c : Int) + -1)
        (chunkXs g cx) (chunkYs g cy) (chunkZs g cz) = true := by
      simp only [isLocalVertex, Bool.not_eq_eq_eq_not, Bool.not_true,
        Bool.or_eq_false_iff, decide_eq_false_iff_not, not_lt, not_le]
      omega
    rw [if_pos hloc, if_pos h1]
    have e1 : ((b : Int) * (chunkXs g cx : Int))
        = ((b * chunkXs g cx : Nat) : Int) := by
      push_cast
      ring
    have e2 : (((c : Int) + -1) * ((chunkXs g cx : Int) * (chunkYs g cy : Int)))
        = (((c - 1) * (chunkXs g cx * chunkYs g cy) : Nat) : Int) := by
      rw [Nat.cast_mul, Nat.cast_sub h1]
      push_cast
      ring
    rw [e1, e2]
    simp only [Option.some.injEq, Prod.mk.injEq]
    refine ⟨trivial, ?_⟩
    unfold vertexAt
    omega
  · have hnloc : ¬ (isLocalVertex (a : Int) (b : Int) ((c : Int) + -1)
        (chunkXs g cx) (chunkYs g cy) (chunkZs g cz) = true) := by
      intro hcontra
      simp only [isLocalVertex, Bool.not_eq_eq_eq_not, Bool.not_true,
        Bool.or_eq_false_iff, decide_eq_false_iff_not, not_lt,
        not_le] at hcontra
      omega
    rw [if_neg hnloc, if_neg h1]
    by_cases hp : g.periodic = true
    · rw [if_pos hp, if_pos hp, if_pos hp, if_pos hp]
      have hwx : (((cx : Int) + (g.chunksPerDim : Int))
            % (g.chunksPerDim : Int)) = (cx : Int) := by
        have h0 : ((cx : Int) + (g.chunksPerDim : Int))
            = (cx : Int) + (g.chunksPerDim : Int) * 1 := by ring
        rw [h0, Int.add_mul_emod_self_left]
        exact Int.emod_eq_of_lt (by omega) (by omega)
      have hwy : (((cy : Int) + (g.chunksPerDim : Int))
            % (g.chunksPerDim : Int)) = (cy : Int) := by
        have h0 : ((cy : Int) + (g.chunksPerDim : Int))
            = (cy : Int) + (g.chunksPerDim : Int) * 1 := by ring
        rw [h0, Int.add_mul_emod_self_left]
        exact Int.emod_eq_of_lt (by omega) (by omega)
      rw [hwx, hwy]
      by_cases h2 : 1 ≤ cz
      · have hwz : (((cz : Int) + -1 + (g.chunksPerDim : Int))
              % (g.chunksPerDim : Int)) = ((cz - 1 : Nat) : Int) := by
          have h0 : ((cz : Int) + -1 + (g.chunksPerDim : Int))
              = ((cz - 1 : Nat) : Int) + (g.chunksPerDim : Int) * 1 := by
            omega
          rw [h0, Int.add_mul_emod_self_left]
          exact Int.emod_eq_of_lt (by omega) (by omega)
        rw [hwz, if_pos h2]
        have hvalid : isValidChunk g (cx : Int) (cy : Int)
            ((cz - 1 : Nat) : Int) = true := by
          simp only [isValidChunk, Bool.not_eq_eq_eq_not, Bool.not_true,
            Bool.or_eq_false_iff, decide_eq_false_iff_not, not_lt, not_le]
          omega
        rw [if_pos hvalid]
        simp only [Int.toNat_natCast]
        rw [locate_front_eval g cx cy (cz - 1) a b c hcx hcy]
      · have hwz : (((cz : Int) + -1 + (g.chunksPerDim : Int))
              % (g.chunksPerDim : Int))
              = ((g.chunksPerDim - 1 : Nat) : Int) := by
          have h0 : ((cz : Int) + -1 + (g.chunksPerDim : Int))
              = ((g.chunksPerDim - 1 : Nat) : Int)
                + (g.chunksPerDim : Int) * 0 := by
            omega
          rw [h0, Int.add_mul_emod_self_left]
          exact Int.emod_eq_of_lt (by omega) (by omega)
        rw [hwz, if_neg h2]
        have hvalid : isValidChunk g (cx : Int) (cy : Int)
            ((g.chunksPerDim - 1 : Nat) : Int) = true := by
          simp only [isValidChunk, Bool.not_eq_eq_eq_not, Bool.not_true,
            Bool.or_eq_false_iff, decide_eq_false_iff_not, not_lt, not_le]
          omega
        rw [if_pos hvalid]
        simp only [Int.toNat_natCast]
        rw [locate_front_eval g cx cy (g.chunksPerDim - 1) a b c hcx hcy]
    · rw [if_neg hp, if_neg hp, if_neg hp, if_neg hp]
      by_cases h2 : 1 ≤ cz
      · rw [if_pos h2]
        have e3 : ((cz : Int) + -1) = ((cz - 1 : Nat) : Int) := by omega
        rw [e3]
        have hvalid : isValidChunk g (cx : Int) (cy : Int)
            ((cz - 1 : Nat) : Int) = true := by
          simp only [isValidChunk, Bool.not_eq_eq_eq_not, Bool.not_true,
            Bool.or_eq_false_iff, decide_eq_false_iff_not, not_lt, not_le]
          omega
        rw [if_pos hvalid]
        simp only [Int.toNat_natCast]
        rw [locate_front_eval g cx cy (cz - 1) a b c hcx hcy]
      · rw [if_neg h2]
        have hnvalid : ¬ (isValidChunk g (cx : Int) (cy : Int)
            ((cz : Int) + -1) = true) := by
          intro hcontra
          simp only [isValidChunk, Bool.not_eq_eq_eq_not, Bool.not_true,
            Bool.or_eq_false_iff, decide_eq_false_iff_not, not_lt,
            not_le] at hcontra
          omega
        rw [if_neg hnvalid]


/-- Every successful neighbor query has an inverse: querying from the
target in the opposite direction returns the source, in periodic and
non-periodic mode alike (each grid dimension must be at least
`chunks_per_dim`, so that the entered chunk is nonempty). -/
theorem query_roundtrip (g : Grid3DParams)
    (hX : g.chunksPerDim ≤ g.totalX) (hY : g.chunksPerDim ≤ g.totalY)
    (hZ : g.chunksPerDim ≤ g.totalZ)
    (cx cy cz a b c u v : Nat) (dir : Direction)
    (hcx : cx < g.chunksPerDim) (hcy : cy < g.chunksPerDim)
    (hcz : cz < g.chunksPerDim) (ha : a < chunkXs g cx)
    (hb : b < chunkYs g cy) (hc : c < chunkZs g cz)
    (hq : queryInDirection g (encodeChunk g cx cy cz)
        (vertexAt g cx cy cz a b c) dir = some (u, v)) :
    u = vertexAt g cx cy cz a b c ∧
    ∃ cx2 cy2 cz2 a2 b2 c2, cx2 < g.chunksPerDim ∧ cy2 < g.chunksPerDim ∧
      cz2 < g.chunksPerDim ∧ a2 < chunkXs g cx2 ∧ b2 < chunkYs g cy2 ∧
      c2 < chunkZs g cz2 ∧ v = vertexAt g cx2 cy2 cz2 a2 b2 c2 ∧
      queryInDirection g (encodeChunk g cx2 cy2 cz2) v (oppositeDir dir)
        = some (v, u) := by
  have hd : 1 ≤ g.chunksPerDim := by omega
  have hxpos := chunkXs_pos g hd hX
  have hypos := chunkYs_pos g hd hY
  have hzpos := chunkZs_pos g hd hZ
  cases dir
  case Right =>
    rw [query_eval_right g cx cy cz a b c hcx hcy hcz ha hb hc] at hq
    simp only [oppositeDir]
    split_ifs at hq with h1 h2 h3
    · simp only [Option.some.injEq, Prod.mk.injEq] at hq
      obtain ⟨hu, hv⟩ := hq
      subst hu
      subst hv
      refine ⟨rfl, cx, cy, cz, a + 1, b, c, hcx, hcy, hcz, h1, hb, hc,
        rfl, ?_⟩
      rw [query_eval_left g cx cy cz (a + 1) b c hcx hcy hcz h1 hb hc,
        if_pos (show 1 ≤ a + 1 by omega), Nat.add_sub_cancel]
    · simp only [Option.some.injEq, Prod.mk.injEq] at hq
      obtain ⟨hu, hv⟩ := hq
      subst hu
      subst hv
      refine ⟨rfl, cx + 1, cy, cz, 0, b, c, h2, hcy, hcz, hxpos (cx + 1),
        hb, hc, rfl, ?_⟩
      rw [query_eval_left g (cx + 1) cy cz 0 b c h2 hcy hcz (hxpos (cx + 1))
        hb hc, if_neg (show ¬ 1 ≤ 0 by omega),
        if_pos (show 1 ≤ cx + 1 by omega), Nat.add_sub_cancel,
        show chunkXs g cx - 1 = a by omega]
    · simp only [Option.some.injEq, Prod.mk.injEq] at hq
      obtain ⟨hu, hv⟩ := hq
      subst hu
      subst hv
      refine ⟨rfl, 0, cy, cz, 0, b, c, by omega, hcy, hcz, hxpos 0, hb, hc,
        rfl, ?_⟩
      rw [query_eval_left g 0 cy cz 0 b c (by omega) hcy hcz (hxpos 0) hb hc,
        if_neg (show ¬ 1 ≤ 0 by omega), if_neg (show ¬ 1 ≤ 0 by omega),
        if_pos h3, show g.chunksPerDim - 1 = cx by omega,
        show chunkXs g cx - 1 = a by omega]
  case Left =>
    rw [query_eval_left g cx cy cz a b c hcx hcy hcz ha hb hc] at hq
    simp only [oppositeDir]
    split_ifs at hq with h1 h2 h3
    · simp only [Option.some.injEq, Prod.mk.injEq] at hq
      obtain ⟨hu, hv⟩ := hq
      subst hu
      subst hv
      refine ⟨rfl, cx, cy, cz, a - 1, b, c, hcx, hcy, hcz, by omega, hb, hc,
        rfl, ?_⟩
      rw [query_eval_right g cx cy cz (a - 1) b c hcx hcy hcz (by omega)
        hb hc, show a - 1 + 1 = a by omega, if_pos ha]
    · have ha0 : a = 0 := by omega
      subst ha0
      simp only [Option.some.injEq, Prod.mk.injEq] at hq
      obtain ⟨hu, hv⟩ := hq
      subst hu
      subst hv
      have hp1 := hxpos (cx - 1)
      refine ⟨rfl, cx - 1, cy, cz, chunkXs g (cx - 1) - 1, b, c, by omega,
        hcy, hcz, by omega, hb, hc, rfl, ?_⟩
      rw [query_eval_right g (cx - 1) cy cz (chunkXs g (cx - 1) - 1) b c
        (by omega) hcy hcz (by omega) hb hc,
        show chunkXs g (cx - 1) - 1 + 1 = chunkXs g (cx - 1) by omega,
        if_neg (show ¬ chunkXs g (cx - 1) < chunkXs g (cx - 1) by omega),
        show cx - 1 + 1 = cx by omega, if_pos hcx]
    · have ha0 : a = 0 := by omega
      subst ha0
      have hcx0 : cx = 0 := by omega
      subst hcx0
      simp only [Option.some.injEq, Prod.mk.injEq] at hq
      obtain ⟨hu, hv⟩ := hq
      subst hu
      subst hv
      have hp1 := hxpos (g.chunksPerDim - 1)
      refine ⟨rfl, g.chunksPerDim - 1, cy, cz,
        chunkXs g (g.chunksPerDim - 1) - 1, b, c, by omega, hcy, hcz,
        by omega, hb, hc, rfl, ?_⟩
      rw [query_eval_right g (g.chunksPerDim - 1) cy cz
        (chunkXs g (g.chunksPerDim - 1) - 1) b c (by omega) hcy hcz
        (by omega) hb hc,
        show chunkXs g (g.chunksPerDim - 1) - 1 + 1
          = chunkXs g (g.chunksPerDim - 1) by omega,
        if_neg (show ¬ chunkXs g (g.chunksPerDim - 1)
          < chunkXs g (g.chunksPerDim - 1) by omega),
        show g.chunksPerDim - 1 + 1 = g.chunksPerDim by omega,
        if_neg (show ¬ g.chunksPerDim < g.chunksPerDim by omega), if_pos h3]
  case Up =>
    rw [query_eval_up g cx cy cz a b c hcx hcy hcz ha hb hc] at hq
    simp only [oppositeDir]
    split_ifs at hq with h1 h2 h3
    · simp only [Option.some.injEq, Prod.mk.injEq] at hq
      obtain ⟨hu, hv⟩ := hq
      subst hu
      subst hv
      refine ⟨rfl, cx, cy, cz, a, b - 1, c, hcx, hcy, hcz, ha, by omega, hc,
        rfl, ?_⟩
      rw [query_eval_down g cx cy cz a (b - 1) c hcx hcy hcz ha (by omega) hc,
        show b - 1 + 1 = b by omega, if_pos hb]
    · have hb0 : b = 0 := by omega
      subst hb0
      simp only [Option.some.injEq, Prod.mk.injEq] at hq
      obtain ⟨hu, hv⟩ := hq
      subst hu
      subst hv
      have hp1 := hypos (cy - 1)
      refine ⟨rfl, cx, cy - 1, cz, a, chunkYs g (cy - 1) - 1, c, hcx,
        by omega, hcz, ha, by omega, hc, rfl, ?_⟩
      rw [query_eval_down g cx (cy - 1) cz a (chunkYs g (cy - 1) - 1) c hcx
        (by omega) hcz ha (by omega) hc,
        show chunkYs g (cy - 1) - 1 + 1 = chunkYs g (cy - 1) by omega,
        if_neg (show ¬ chunkYs g (cy - 1) < chunkYs g (cy - 1) by omega),
        show cy - 1 + 1 = cy by omega, if_pos hcy]
    · have hb0 : b = 0 := by omega
      subst hb0
      have hcy0 : cy = 0 := by omega
      subst hcy0
      simp only [Option.some.injEq, Prod.mk.injEq] at hq
      obtain ⟨hu, hv⟩ := hq
      subst hu
      subst hv
      have hp1 := hypos (g.chunksPerDim - 1)
      refine ⟨rfl, cx, g.chunksPerDim - 1, cz, a,
        chunkYs g (g.chunksPerDim - 1) - 1, c, hcx, by omega, hcz, ha,
        by omega, hc, rfl, ?_⟩
      rw [query_eval_down g cx (g.chunksPerDim - 1) cz a
        (chunkYs g (g.chunksPerDim - 1) - 1) c hcx (by omega) hcz ha
        (by omega) hc,
        show chunkYs g (g.chunksPerDim - 1) - 1 + 1
          = chunkYs g (g.chunksPerDim - 1) by omega,
        if_neg (show ¬ chunkYs g (g.chunksPerDim - 1)
          < chunkYs g (g.chunksPerDim - 1) by omega),
        show g.chunksPerDim - 1 + 1 = g.chunksPerDim by omega,
        if_neg (show ¬ g.chunksPerDim < g.chunksPerDim by omega), if_pos h3]
  case Down =>
    rw [query_eval_down g cx cy cz a b c hcx hcy hcz ha hb hc] at hq
    simp only [oppositeDir]
    split_ifs at hq with h1 h2 h3
    · simp only [Option.some.injEq, Prod.mk.injEq] at hq
      obtain ⟨hu, hv⟩ := hq
      subst hu
      subst hv
      refine ⟨rfl, cx, cy, cz, a, b + 1, c, hcx, hcy, hcz, ha, h1, hc,
        rfl, ?_⟩
      rw [query_eval_up g cx cy cz a (b + 1) c hcx hcy hcz ha h1 hc,
        if_pos (show 1 ≤ b + 1 by omega), Nat.add_sub_cancel]
    · simp only [Option.some.injEq, Prod.mk.injEq] at hq
      obtain ⟨hu, hv⟩ := hq
      subst hu
      subst hv
      refine ⟨rfl, cx, cy + 1, cz, a, 0, c, hcx, h2, hcz, ha,
        hypos (cy + 1), hc, rfl, ?_⟩
      rw [query_eval_up g cx (cy + 1) cz a 0 c hcx h2 hcz ha
        (hypos (cy + 1)) hc, if_neg (show ¬ 1 ≤ 0 by omega),
        if_pos (show 1 ≤ cy + 1 by omega), Nat.add_sub_cancel,
        show chunkYs g cy - 1 = b by omega]
    · simp only [Option.some.injEq, Prod.mk.injEq] at hq
      obtain ⟨hu, hv⟩ := hq
      subst hu
      subst hv
      refine ⟨rfl, cx, 0, cz, a, 0, c, hcx, by omega, hcz, ha, hypos 0, hc,
        rfl, ?_⟩
      rw [query_eval_up g cx 0 cz a 0 c hcx (by omega) hcz ha (hypos 0) hc,
        if_neg (show ¬ 1 ≤ 0 by omega), if_neg (show ¬ 1 ≤ 0 by omega),
        if_pos h3, show g.chunksPerDim - 1 = cy by omega,
        show chunkYs g cy - 1 = b by omega]
  case Front =>
    rw [query_eval_front g cx cy cz a b c hcx hcy hcz ha hb hc] at hq
    simp only [oppositeDir]
    split_ifs at hq with h1 h2 h3
    · simp only [Option.some.injEq, Prod.mk.injEq] at hq
      obtain ⟨hu, hv⟩ := hq
      subst hu
      subst hv
      refine ⟨rfl, cx, cy, cz, a, b, c - 1, hcx, hcy, hcz, ha, hb, by omega,
        rfl, ?_⟩
      rw [query_eval_back g cx cy cz a b (c - 1) hcx hcy hcz ha hb (by omega),
        show c - 1 + 1 = c by omega, if_pos hc]
    · have hc0 : c = 0 := by omega
      subst hc0
      simp only [Option.some.injEq, Prod.mk.injEq] at hq
      obtain ⟨hu, hv⟩ := hq
      subst hu
      subst hv
      have hp1 := hzpos (cz - 1)
      refine ⟨rfl, cx, cy, cz - 1, a, b, chunkZs g (cz - 1) - 1, hcx, hcy,
        by omega, ha, hb, by omega, rfl, ?_⟩
      rw [query_eval_back g cx cy (cz - 1) a b (chunkZs g (cz - 1) - 1) hcx
        hcy (by omega) ha hb (by omega),
        show chunkZs g (cz - 1) - 1 + 1 = chunkZs g (cz - 1) by omega,
        if_neg (show ¬ chunkZs g (cz - 1) < chunkZs g (cz - 1) by omega),
        show cz - 1 + 1 = cz by omega, if_pos hcz]
    · have hc0 : c = 0 := by omega
      subst hc0
      have hcz0 : cz = 0 := by omega
      subst hcz0
      simp only [Option.some.injEq, Prod.mk.injEq] at hq
      obtain ⟨hu, hv⟩ := hq
      subst hu
      subst hv
      have hp1 := hzpos (g.chunksPerDim - 1)
      refine ⟨rfl, cx, cy, g.chunksPerDim - 1, a, b,
        chunkZs g (g.chunksPerDim - 1) - 1, hcx, hcy, by omega, ha, hb,
        by omega, rfl, ?_⟩
      rw [query_eval_back g cx cy (g.chunksPerDim - 1) a b
        (chunkZs g (g.chunksPerDim - 1) - 1) hcx hcy (by omega) ha hb
        (by omega),
        show chunkZs g (g.chunksPerDim - 1) - 1 + 1
          = chunkZs g (g.chunksPerDim - 1) by omega,
        if_neg (show ¬ chunkZs g (g.chunksPerDim - 1)
          < chunkZs g (g.chunksPerDim - 1) by omega),
        show g.chunksPerDim - 1 + 1 = g.chunksPerDim by omega,
        if_neg (show ¬ g.chunksPerDim < g.chunksPerDim by omega), if_pos h3]
  case Back =>
    rw [query_eval_back g cx cy cz a b c hcx hcy hcz ha hb hc] at hq
    simp only [oppositeDir]
    split_ifs at hq with h1 h2 h3
    · simp only [Option.some.injEq, Prod.mk.injEq] at hq
      obtain ⟨hu, hv⟩ := hq
      subst hu
      subst hv
      refine ⟨rfl, cx, cy, cz, a, b, c + 1, hcx, hcy, hcz, ha, hb, h1,
        rfl, ?_⟩
      rw [query_eval_front g cx cy cz a b (c + 1) hcx hcy hcz ha hb h1,
        if_pos (show 1 ≤ c + 1 by omega), Nat.add_sub_cancel]
    · simp only [Option.some.injEq, Prod.mk.injEq] at hq
      obtain ⟨hu, hv⟩ := hq
      subst hu
      subst hv
      refine ⟨rfl, cx, cy, cz + 1, a, b, 0, hcx, hcy, h2, ha, hb,
        hzpos (cz + 1), rfl, ?_⟩
      rw [query_eval_front g cx cy (cz + 1) a b 0 hcx hcy h2 ha hb
        (hzpos (cz + 1)), if_neg (show ¬ 1 ≤ 0 by omega),
        if_pos (show 1 ≤ cz + 1 by omega), Nat.add_sub_cancel,
        show chunkZs g cz - 1 = c by omega]
    · simp only [Option.some.injEq, Prod.mk.injEq] at hq
      obtain ⟨hu, hv⟩ := hq
      subst hu
      subst hv
      refine ⟨rfl, cx, cy, 0, a, b, 0, hcx, hcy, by omega, ha, hb, hzpos 0,
        rfl, ?_⟩
      rw [query_eval_front g cx cy 0 a b 0 hcx hcy (by omega) ha hb
        (hzpos 0), if_neg (show ¬ 1 ≤ 0 by omega),
        if_neg (show ¬ 1 ≤ 0 by omega), if_pos h3,
        show g.chunksPerDim - 1 = cz by omega,
        show chunkZs g cz - 1 = c by omega]


/-- Every vertex of a chunk's id interval decomposes into well-formed
chunk and local coordinates. -/
theorem vertex_decompose (g : Grid3DParams) (hd : 1 ≤ g.chunksPerDim)
    (chunk vertex : Nat)
    (hchunk : chunk < g.chunksPerDim * g.chunksPerDim * g.chunksPerDim)
    (hlo : offsetForChunk g chunk ≤ vertex)
    (hhi : vertex < offsetForChunk g (chunk + 1)) :
    ∃ cx cy cz a b c, cx < g.chunksPerDim ∧ cy < g.chunksPerDim ∧
      cz < g.chunksPerDim ∧ a < chunkXs g cx ∧ b < chunkYs g cy ∧
      c < chunkZs g cz ∧ chunk = encodeChunk g cx cy cz ∧
      vertex = vertexAt g cx cy cz a b c := by
  have hcx : decodeX g chunk < g.chunksPerDim := Nat.mod_lt _ hd
  have hcy : decodeY g chunk < g.chunksPerDim := Nat.mod_lt _ hd
  have hcz : decodeZ g chunk < g.chunksPerDim := by
    unfold decodeZ
    rw [Nat.div_lt_iff_lt_mul (Nat.mul_pos hd hd)]
    have e : g.chunksPerDim * (g.chunksPerDim * g.chunksPerDim)
        = g.chunksPerDim * g.chunksPerDim * g.chunksPerDim := by ring
    omega
  have hsucc := offsetForChunk_succ g hd chunk
  have hvol2 : chunkVolume g chunk
      = chunkXs g (decodeX g chunk) * chunkYs g (decodeY g chunk)
        * chunkZs g (decodeZ g chunk) := rfl
  have hlvlt : vertex - offsetForChunk g chunk < chunkVolume g chunk := by
    omega
  have hvpos : 0 < chunkXs g (decodeX g chunk) * chunkYs g (decodeY g chunk)
      * chunkZs g (decodeZ g chunk) := by
    rw [← hvol2]
    omega
  have hxs : 0 < chunkXs g (decodeX g chunk) := by
    rcases Nat.eq_zero_or_pos (chunkXs g (decodeX g chunk)) with h | h
    · rw [h, Nat.zero_mul, Nat.zero_mul] at hvpos
      exact absurd hvpos (Nat.lt_irrefl 0)
    · exact h
  have hys : 0 < chunkYs g (decodeY g chunk) := by
    rcases Nat.eq_zero_or_pos (chunkYs g (decodeY g chunk)) with h | h
    · rw [h, Nat.mul_zero, Nat.zero_mul] at hvpos
      exact absurd hvpos (Nat.lt_irrefl 0)
    · exact h
  obtain ⟨ha, hb, hcc, hdec⟩ := localCoords_spec _ _ _
    (vertex - offsetForChunk g chunk) hxs hys (by rw [← hvol2]; exact hlvlt)
  have henc : encodeChunk g (decodeX g chunk) (decodeY g chunk)
      (decodeZ g chunk) = chunk := by
    rw [encodeChunk_eq]
    exact decode_recompose g chunk
  refine ⟨decodeX g chunk, decodeY g chunk, decodeZ g chunk, _, _, _,
    hcx, hcy, hcz, ha, hb, hcc, henc.symm, ?_⟩
  unfold vertexAt
  rw [henc, hdec]
  omega

/-- A participant's owned chunk ids stay below the total chunk count. -/
theorem owned_chunk_lt (k numPEs rank j : Nat) (hrank : rank < numPEs)
    (hj : j < numChunksOwned k numPEs rank) :
    startChunkOwned k numPEs rank + j < k := by
  have hsucc := startChunkOwned_succ k numPEs rank
  have hmono : startChunkOwned k numPEs (rank + 1)
      ≤ startChunkOwned k numPEs numPEs :=
    nat_mono_of_succ_le (startChunkOwned k numPEs)
      (fun r => by
        rw [startChunkOwned_succ]
        exact Nat.le_add_right _ _) hrank
  rw [startChunkOwned_top k numPEs (by omega)] at hmono
  omega

/-- Every chunk id below the total is owned by some participant. -/
theorem owner_exists (k numPEs c : Nat) (hP : 1 ≤ numPEs) (hc : c < k) :
    ∃ rank, rank < numPEs ∧ ∃ j, j < numChunksOwned k numPEs rank ∧
      startChunkOwned k numPEs rank + j = c := by
  obtain ⟨r, hr, h1, h2⟩ := nat_mono_bucket (startChunkOwned k numPEs)
    (fun r => by
      rw [startChunkOwned_succ]
      exact Nat.le_add_right _ _)
    numPEs c (by rw [startChunkOwned_zero]; exact Nat.zero_le c)
    (by rw [startChunkOwned_top k numPEs hP]; exact hc)
  rw [startChunkOwned_succ] at h2
  exact ⟨r, hr, c - startChunkOwned k numPEs r, by omega, by omega⟩

/-- With zero chunks no participant owns anything. -/
theorem numChunksOwned_zero_chunks (numPEs rank : Nat) :
    numChunksOwned 0 numPEs rank = 0 := by
  unfold numChunksOwned
  rw [Nat.zero_div, Nat.zero_mod]
  simp

theorem grid3d_both_orientations_core (g : Grid3DParams) (coin : Nat → Bool)
    (k numPEs u v : Nat)
    (hk : k = g.chunksPerDim * g.chunksPerDim * g.chunksPerDim)
    (hX : g.chunksPerDim ≤ g.totalX) (hY : g.chunksPerDim ≤ g.totalY)
    (hZ : g.chunksPerDim ≤ g.totalZ)
    (hmem : (u, v) ∈ gatherAll g coin k numPEs) :
    (v, u) ∈ gatherAll g coin k numPEs := by
  unfold gatherAll at hmem ⊢
  rw [List.mem_flatMap] at hmem ⊢
  obtain ⟨rank, hrankmem, hmem⟩ := hmem
  rw [List.mem_range] at hrankmem
  unfold generateParticipant at hmem
  rw [List.mem_flatMap] at hmem
  obtain ⟨j, hj, hmem⟩ := hmem
  rw [List.mem_range] at hj
  have hd : 1 ≤ g.chunksPerDim := by
    by_contra hd0
    have hdz : g.chunksPerDim = 0 := by omega
    rw [hdz, Nat.mul_zero] at hk
    rw [hk, numChunksOwned_zero_chunks] at hj
    exact absurd hj (by omega)
  have hcklt : startChunkOwned k numPEs rank + j < k :=
    owned_chunk_lt k numPEs rank j hrankmem hj
  obtain ⟨vertex, hlo, hhi, hmem⟩ :=
    mem_generateChunk_vertex g coin _ u v hmem
  obtain ⟨dir, hquery, hcoin⟩ :=
    mem_generateEdgesForVertex g coin _ vertex u v hmem
  obtain ⟨cx, cy, cz, a, b, c, hcx, hcy, hcz, ha, hb, hcc, hcenc, hveq⟩ :=
    vertex_decompose g hd (startChunkOwned k numPEs rank + j) vertex
      (by omega) hlo hhi
  rw [hcenc, hveq] at hquery
  obtain ⟨hu, cx2, cy2, cz2, a2, b2, c2, hcx2, hcy2, hcz2, ha2, hb2, hc2,
      hveq2, hopp⟩ :=
    query_roundtrip g hX hY hZ cx cy cz a b c u v dir hcx hcy hcz ha hb hcc
      hquery
  have hrange := vertexAt_range g cx2 cy2 cz2 a2 b2 c2 hcx2 hcy2 hcz2 ha2
    hb2 hc2
  have hclt : encodeChunk g cx2 cy2 cz2 < k := by
    rw [hk]
    exact encodeChunk_lt g cx2 cy2 cz2 hcx2 hcy2 hcz2
  obtain ⟨rank2, hrank2, j2, hj2, hstart2⟩ :=
    owner_exists k numPEs (encodeChunk g cx2 cy2 cz2) (by omega) hclt
  rw [← hveq2] at hrange
  refine ⟨rank2, ?_, ?_⟩
  · rw [List.mem_range]
    exact hrank2
  · unfold generateParticipant
    rw [List.mem_flatMap]
    refine ⟨j2, ?_, ?_⟩
    · rw [List.mem_range]
      exact hj2
    · rw [hstart2]
      unfold generateChunk
      rw [List.mem_flatMap]
      refine ⟨v - offsetForChunk g (encodeChunk g cx2 cy2 cz2), ?_, ?_⟩
      · rw [List.mem_range]
        omega
      · have hvv : offsetForChunk g (encodeChunk g cx2 cy2 cz2)
            + (v - offsetForChunk g (encodeChunk g cx2 cy2 cz2)) = v := by
          omega
        rw [hvv]
        unfold generateEdgesForVertex
        rw [List.mem_flatMap]
        refine ⟨oppositeDir dir, ?_, ?_⟩
        · cases dir <;> simp [oppositeDir]
        · rw [hopp]
          dsimp only
          have hseed : edgeSeed g v u = edgeSeed g u v := by
            unfold edgeSeed
            rw [Nat.min_comm, Nat.max_comm]
          have hcoin2 : coin (edgeSeed g v u) = true := by
            rw [hseed]
            exact hcoin
          unfold generateEdge
          rw [if_pos hcoin2]
          simp

/-- C2, amended: the emission decision is orientation-symmetric and the
six neighbor queries are mutually inverse, so whenever the chunk count
is the cube of `chunks_per_dim` and every grid dimension is at least
`chunks_per_dim` (no chunk is empty), every directed edge `(u, v)` of
the aggregated, sorted and deduplicated result appears together with
its reverse `(v, u)` — two directed representations per unordered
adjacency rather than exactly one — in periodic and non-periodic mode
alike, for any number of participants, because the output-time
sort+unique removes only exact duplicates and never canonicalizes. -/
theorem grid3d_both_orientations (g : Grid3DParams) (coin : Nat → Bool)
    (k numPEs u v : Nat)
    (hk : k = g.chunksPerDim * g.chunksPerDim * g.chunksPerDim)
    (hX : g.chunksPerDim ≤ g.totalX) (hY : g.chunksPerDim ≤ g.totalY)
    (hZ : g.chunksPerDim ≤ g.totalZ)
    (hmem : (u, v) ∈ gatherOutput g coin k numPEs) :
    (v, u) ∈ gatherOutput g coin k numPEs := by
  unfold gatherOutput at hmem ⊢
  rw [mem_dedupAdjacent, mem_sortEdges] at hmem ⊢
  exact grid3d_both_orientations_core g coin k numPEs u v hk hX hY hZ hmem

/-- C2, witness: on the periodic 2×2×2 grid split into 8 chunks
(`chunks_per_dim = 2`) over 3 participants with all coins accepting,
the reversed orientation (1, 0) of the emitted edge (0, 1) also appears
in the aggregated output. -/
theorem grid3d_both_orientations_witness :
    ((1, 0) : Nat × Nat) ∈ gatherOutput ⟨2, 2, 2, 2, true⟩
      (fun _ => true) 8 3 :=
  grid3d_both_orientations ⟨2, 2, 2, 2, true⟩ (fun _ => true) 8 3 0 1
    (by decide) (by decide) (by decide) (by decide) (by decide)

/-- C2, counterexample: on the non-periodic 2×2×2 grid with one chunk,
one participant and an always-accepting coin (`p = 1`), the accepted
unordered lattice adjacency `{0, 1}` has two directed representations,
`(0, 1)` and `(1, 0)`, in the aggregated sorted deduplicated result —
not exactly one. -/
theorem grid3d_single_emission_cex :
    ((gatherOutput ⟨2, 2, 2, 1, false⟩ (fun _ => true) 1 1).filter
      (fun e => e == ((0 : Nat), (1 : Nat)) || e == ((1 : Nat), (0 : Nat)))).length
      = 2 := by
  decide

end KaGen
